import Mathlib

/- Verification of the transactional mutation/undo core of the ASE sprite
   editor (src/undo_transaction.cpp) against its natural-language
   specification.  The document model (Sprite, Layer, Cel, Stock, Mask) is
   embedded shallowly; pixel surfaces are opaque values, since the pixel
   collaborator is out of scope of the core.  Composite operations are
   translated from the source; the journal record format is modelled from
   the specification (undo_history is a collaborator, not part of the
   source file). -/

namespace AseUndo

/-! ### Indexed list helpers

These model the index-addressed containers of the document (the Stock's
slot array, a folder's child list, a layer's cel list). -/

def getIdx {α : Type} : Nat → List α → Option α
  | _, [] => none
  | 0, x :: _ => some x
  | n+1, _ :: xs => getIdx n xs

def setIdx {α : Type} : Nat → α → List α → List α
  | _, _, [] => []
  | 0, a, _ :: xs => a :: xs
  | n+1, a, x :: xs => x :: setIdx n a xs

def modIdx {α : Type} : Nat → (α → α) → List α → List α
  | _, _, [] => []
  | 0, f, x :: xs => f x :: xs
  | n+1, f, x :: xs => x :: modIdx n f xs

def insIdx {α : Type} : Nat → α → List α → List α
  | 0, a, xs => a :: xs
  | _+1, a, [] => [a]
  | n+1, a, x :: xs => x :: insIdx n a xs

def eraIdx {α : Type} : Nat → List α → List α
  | _, [] => []
  | 0, _ :: xs => xs
  | n+1, x :: xs => x :: eraIdx n xs

/-! ### Document model

Sprite, Layer (image or folder), Cel, Stock, Mask; pixel surfaces are
opaque values (abbrev Img).  The sprite also carries the scalar fields the
composite operations mutate (frame count, current frame, current layer,
size, image mode, per-frame durations, palettes). -/

/-- Opaque pixel surface value.  The pixel collaborator is out of scope;
two stock slots hold the same picture exactly when their values agree. -/
abbrev Img := Nat

structure Cel where
  frame : Int
  x : Int
  y : Int
  opacity : Int
  image : Nat
  deriving DecidableEq

inductive Layer : Type where
  | image (lid : Nat) (flags : Nat) (cels : List Cel)
  | folder (lid : Nat) (flags : Nat) (children : List Layer)

/-- Identifier of a layer node (stands for the C++ object identity). -/
def Layer.lid : Layer → Nat
  | .image i _ _ => i
  | .folder i _ _ => i

/-- Mask state: origin, bounds, an opaque membership bitmap, and the
distinguished empty state. -/
structure MaskSt where
  x : Int
  y : Int
  w : Int
  h : Int
  bits : Nat
  empty : Bool
  deriving DecidableEq

/-- Document state: every field of the sprite the composite operations in
undo_transaction.cpp read or write.  The layer tree is the root folder's
child list; currentLayer holds the id of the selected layer (none when no
layer is selected); frame durations are a total function so that frame
count changes do not disturb recorded durations. -/
structure Doc where
  totalFrames : Int
  currentFrame : Int
  currentLayer : Option Nat
  width : Int
  height : Int
  imgtype : Int
  stockImgtype : Int
  frlens : Int → Int
  stock : List (Option Img)
  root : List Layer
  mask : MaskSt
  palettes : List Nat

/-! ### Layer tree addressing

A folder is addressed by the path of child indices from the root (the
empty path is the root folder itself); a layer is addressed by its
enclosing folder's path plus its index there.  This mirrors how the C++
code holds direct pointers into the tree. -/

def getFolderAt : List Nat → List Layer → Option (List Layer)
  | [], ls => some ls
  | i :: p, ls =>
    match getIdx i ls with
    | some (.folder _ _ cs) => getFolderAt p cs
    | _ => none

def updFolderAt (f : List Layer → List Layer) : List Nat → List Layer → List Layer
  | [], ls => f ls
  | i :: p, ls =>
    modIdx i (fun l =>
      match l with
      | .folder lid fl cs => .folder lid fl (updFolderAt f p cs)
      | l => l) ls

def getLayerAt (p : List Nat) (i : Nat) (ls : List Layer) : Option Layer :=
  (getFolderAt p ls).bind (getIdx i)

def updLayerAt (f : Layer → Layer) (p : List Nat) (i : Nat) (ls : List Layer) : List Layer :=
  updFolderAt (modIdx i f) p ls

/-! ### Layer node helpers -/

/-- Cels of an image layer (a folder has none). -/
def Layer.celsOf : Layer → List Cel
  | .image _ _ cels => cels
  | .folder _ _ _ => []

/-- Applies a transformation to the cel list of an image layer node;
leaves a folder node unchanged. -/
def mapCels (f : List Cel → List Cel) : Layer → Layer
  | .image lid fl cels => .image lid fl (f cels)
  | l => l

/-- Overwrites the flags word of a layer node (models writing through
flags_addr, as layerFromBackground and configureLayerAsBackground do). -/
def Layer.setFlags (v : Nat) : Layer → Layer
  | .image lid _ cels => .image lid v cels
  | .folder lid _ cs => .folder lid v cs

/-- Cel list of the layer addressed by folder path fp and index li, when
that layer is an image layer. -/
def celsAt (fp : List Nat) (li : Nat) (ls : List Layer) : Option (List Cel) :=
  match getLayerAt fp li ls with
  | some (.image _ _ cels) => some cels
  | _ => none

/-! ### Primitive journaled mutation steps

Each constructor is one primitive mutation the composite operations in
undo_transaction.cpp issue: a scalar sprite field, a Stock slot, a layer
tree edit, a cel edit, or a mask edit.  Pointer arguments of the C++
functions are rendered as tree addresses (folder path + index) and stock
indices.  In-place pixel edits (undo_image, undo_dirty, undo_flip paths)
appear as editImage: the slot keeps its identity and its value is
replaced, with the old value journaled. -/

inductive Prim : Type where
  | setFrames (n : Int)
  | setFrame (n : Int)
  | setLayerSel (sel : Option Nat)
  | setSize (w h : Int)
  | setFrlen (fr : Int) (msecs : Int)
  | addImage (img : Img)
  | removeImage (idx : Nat)
  | replaceImage (idx : Nat) (img : Img)
  | editImage (idx : Nat) (img : Img)
  | addLayer (fp : List Nat) (sub : Layer)
  | removeLayer (fp : List Nat) (li : Nat)
  | moveLayer (fp : List Nat) (i j : Nat)
  | setLayerFlags (fp : List Nat) (li : Nat) (v : Nat)
  | addCel (fp : List Nat) (li : Nat) (cel : Cel)
  | removeCelStep (fp : List Nat) (li : Nat) (ci : Nat)
  | celFrame (fp : List Nat) (li : Nat) (ci : Nat) (n : Int)
  | celPos (fp : List Nat) (li : Nat) (ci : Nat) (x y : Int)
  | setMask (m : MaskSt)
  | maskPos (x y : Int)
  | setStockImgtype (n : Int)
  | setImgtype (n : Int)

/-- Journal records.  Modelled from the spec: the journal (undo_history)
is a collaborator whose source is not part of this file; per the spec each
record is a tagged variant capturing exactly the state needed to reverse
one primitive mutation, and a group is undone by replaying its records in
strict LIFO order. -/
inductive URec : Type where
  | frames (old : Int)
  | frame (old : Int)
  | layerSel (old : Option Nat)
  | size (ow oh : Int)
  | frlen (fr : Int) (old : Int)
  | imageAdded (idx : Nat)
  | imageRemoved (idx : Nat) (old : Img)
  | imageReplaced (idx : Nat) (old : Img)
  | imageEdited (idx : Nat) (old : Img)
  | layerAdded (fp : List Nat) (pos : Nat)
  | layerRemoved (fp : List Nat) (pos : Nat) (sub : Layer)
  | layerMoved (fp : List Nat) (i j : Nat)
  | flagsSet (fp : List Nat) (li : Nat) (old : Nat)
  | celAdded (fp : List Nat) (li : Nat) (pos : Nat)
  | celRemoved (fp : List Nat) (li : Nat) (pos : Nat) (cel : Cel)
  | celFrameSet (fp : List Nat) (li ci : Nat) (old : Int)
  | celPosSet (fp : List Nat) (li ci : Nat) (ox oy : Int)
  | maskSet (old : MaskSt)
  | maskPosSet (ox oy : Int)
  | paletteRemoved (pal : Nat)
  | stockImgtypeSet (old : Int)
  | imgtypeSet (old : Int)

/-- Forward effect of one primitive mutation on the document, as the
corresponding function in undo_transaction.cpp performs it. -/
def applyPrim : Prim → Doc → Doc
  | .setFrames n, d => { d with totalFrames := n }
  | .setFrame n, d => { d with currentFrame := n }
  | .setLayerSel sel, d => { d with currentLayer := sel }
  | .setSize w h, d => { d with width := w, height := h }
  | .setFrlen fr ms, d => { d with frlens := fun k => if k = fr then ms else d.frlens k }
  | .addImage img, d => { d with stock := d.stock ++ [some img] }
  | .removeImage idx, d => { d with stock := setIdx idx none d.stock }
  | .replaceImage idx img, d => { d with stock := setIdx idx (some img) d.stock }
  | .editImage idx img, d => { d with stock := setIdx idx (some img) d.stock }
  | .addLayer fp sub, d => { d with root := updFolderAt (fun cs => cs ++ [sub]) fp d.root }
  | .removeLayer fp li, d => { d with root := updFolderAt (eraIdx li) fp d.root }
  | .moveLayer fp i j, d =>
      { d with root := updFolderAt (fun cs =>
          match getIdx i cs with
          | some x => insIdx j x (eraIdx i cs)
          | none => cs) fp d.root }
  | .setLayerFlags fp li v, d => { d with root := updLayerAt (Layer.setFlags v) fp li d.root }
  | .addCel fp li cel, d => { d with root := updLayerAt (mapCels (fun cels => cels ++ [cel])) fp li d.root }
  | .removeCelStep fp li ci, d => { d with root := updLayerAt (mapCels (eraIdx ci)) fp li d.root }
  | .celFrame fp li ci n, d =>
      { d with root := updLayerAt (mapCels (modIdx ci (fun c => { c with frame := n }))) fp li d.root }
  | .celPos fp li ci x y, d =>
      { d with root := updLayerAt (mapCels (modIdx ci (fun c => { c with x := x, y := y }))) fp li d.root }
  | .setMask m, d => { d with mask := m }
  | .maskPos x y, d => { d with mask := { d.mask with x := x, y := y } }
  | .setStockImgtype n, d => { d with stockImgtype := n }
  | .setImgtype n, d => { d with imgtype := n }

/-- Inverse records the enabled journal receives for one primitive, in
the forward order they are recorded; the saved state is expressed against
the document before the mutation.  For addImage the index recorded by the
source after the insertion equals the stock length before it, so the
record content is the same; the intra-step ordering of records versus
mutations is settled separately by the step traces. -/
def recordPrim : Prim → Doc → List URec
  | .setFrames _, d => [.frames d.totalFrames]
  | .setFrame _, d => [.frame d.currentFrame]
  | .setLayerSel _, d => [.layerSel d.currentLayer]
  | .setSize _ _, d => [.size d.width d.height]
  | .setFrlen fr _, d => [.frlen fr (d.frlens fr)]
  | .addImage _, d => [.imageAdded d.stock.length]
  | .removeImage idx, d =>
      [.imageRemoved idx (match getIdx idx d.stock with
        | some (some img) => img
        | _ => 0)]
  | .replaceImage idx _, d =>
      [.imageReplaced idx (match getIdx idx d.stock with
        | some (some img) => img
        | _ => 0)]
  | .editImage idx _, d =>
      [.imageEdited idx (match getIdx idx d.stock with
        | some (some img) => img
        | _ => 0)]
  | .addLayer fp _, d =>
      [.layerAdded fp (match getFolderAt fp d.root with
        | some cs => cs.length
        | none => 0)]
  | .removeLayer fp li, d =>
      [.layerRemoved fp li (match getLayerAt fp li d.root with
        | some l => l
        | none => .image 0 0 [])]
  | .moveLayer fp i j, _ => [.layerMoved fp i j]
  | .setLayerFlags fp li _, d =>
      [.flagsSet fp li (match getLayerAt fp li d.root with
        | some (.image _ fl _) => fl
        | some (.folder _ fl _) => fl
        | none => 0)]
  | .addCel fp li _, d =>
      [.celAdded fp li (match celsAt fp li d.root with
        | some cels => cels.length
        | none => 0)]
  | .removeCelStep fp li ci, d =>
      [.celRemoved fp li ci (match celsAt fp li d.root with
        | some cels =>
          match getIdx ci cels with
          | some c => c
          | none => { frame := 0, x := 0, y := 0, opacity := 0, image := 0 }
        | none => { frame := 0, x := 0, y := 0, opacity := 0, image := 0 })]
  | .celFrame fp li ci _, d =>
      [.celFrameSet fp li ci (match celsAt fp li d.root with
        | some cels =>
          match getIdx ci cels with
          | some c => c.frame
          | none => 0
        | none => 0)]
  | .celPos fp li ci _ _, d =>
      [.celPosSet fp li ci
        (match celsAt fp li d.root with
          | some cels =>
            match getIdx ci cels with
            | some c => c.x
            | none => 0
          | none => 0)
        (match celsAt fp li d.root with
          | some cels =>
            match getIdx ci cels with
            | some c => c.y
            | none => 0
          | none => 0)]
  | .setMask _, d => [.maskSet d.mask]
  | .maskPos _ _, d => [.maskPosSet d.mask.x d.mask.y]
  | .setStockImgtype _, d => [.stockImgtypeSet d.stockImgtype]
  | .setImgtype _, d => [.imgtypeSet d.imgtype]

/-- Replay of one inverse record against the document. -/
def undoRec : URec → Doc → Doc
  | .frames old, d => { d with totalFrames := old }
  | .frame old, d => { d with currentFrame := old }
  | .layerSel old, d => { d with currentLayer := old }
  | .size ow oh, d => { d with width := ow, height := oh }
  | .frlen fr old, d => { d with frlens := fun k => if k = fr then old else d.frlens k }
  | .imageAdded idx, d => { d with stock := eraIdx idx d.stock }
  | .imageRemoved idx old, d => { d with stock := setIdx idx (some old) d.stock }
  | .imageReplaced idx old, d => { d with stock := setIdx idx (some old) d.stock }
  | .imageEdited idx old, d => { d with stock := setIdx idx (some old) d.stock }
  | .layerAdded fp pos, d => { d with root := updFolderAt (eraIdx pos) fp d.root }
  | .layerRemoved fp pos sub, d => { d with root := updFolderAt (insIdx pos sub) fp d.root }
  | .layerMoved fp i j, d =>
      { d with root := updFolderAt (fun cs =>
          match getIdx j cs with
          | some x => insIdx i x (eraIdx j cs)
          | none => cs) fp d.root }
  | .flagsSet fp li old, d => { d with root := updLayerAt (Layer.setFlags old) fp li d.root }
  | .celAdded fp li pos, d => { d with root := updLayerAt (mapCels (eraIdx pos)) fp li d.root }
  | .celRemoved fp li pos cel, d => { d with root := updLayerAt (mapCels (insIdx pos cel)) fp li d.root }
  | .celFrameSet fp li ci old, d =>
      { d with root := updLayerAt (mapCels (modIdx ci (fun c => { c with frame := old }))) fp li d.root }
  | .celPosSet fp li ci ox oy, d =>
      { d with root := updLayerAt (mapCels (modIdx ci (fun c => { c with x := ox, y := oy }))) fp li d.root }
  | .maskSet old, d => { d with mask := old }
  | .maskPosSet ox oy, d => { d with mask := { d.mask with x := ox, y := oy } }
  | .paletteRemoved pal, d => { d with palettes := d.palettes ++ [pal] }
  | .stockImgtypeSet old, d => { d with stockImgtype := old }
  | .imgtypeSet old, d => { d with imgtype := old }

/-- Validity of a primitive call against the current document: the
preconditions the C++ code asserts, plus resolvability of the pointer
arguments (a C++ caller can only pass pointers to objects that exist). -/
def valid : Prim → Doc → Bool
  | .setFrames n, _ => decide (1 ≤ n)
  | .setFrame n, _ => decide (0 ≤ n)
  | .setLayerSel _, _ => true
  | .setSize w h, _ => decide (0 < w) && decide (0 < h)
  | .setFrlen _ _, _ => true
  | .addImage _, _ => true
  | .removeImage idx, d =>
      match getIdx idx d.stock with
      | some (some _) => true
      | _ => false
  | .replaceImage idx _, d =>
      match getIdx idx d.stock with
      | some (some _) => true
      | _ => false
  | .editImage idx _, d =>
      match getIdx idx d.stock with
      | some (some _) => true
      | _ => false
  | .addLayer fp _, d => (getFolderAt fp d.root).isSome
  | .removeLayer fp li, d => (getLayerAt fp li d.root).isSome
  | .moveLayer fp i j, d =>
      match getFolderAt fp d.root with
      | some cs => decide (i < cs.length) && decide (j + 1 ≤ cs.length)
      | none => false
  | .setLayerFlags fp li _, d => (getLayerAt fp li d.root).isSome
  | .addCel fp li _, d => (celsAt fp li d.root).isSome
  | .removeCelStep fp li ci, d =>
      match celsAt fp li d.root with
      | some cels => decide (ci < cels.length)
      | none => false
  | .celFrame fp li ci _, d =>
      match celsAt fp li d.root with
      | some cels => decide (ci < cels.length)
      | none => false
  | .celPos fp li ci _ _, d =>
      match celsAt fp li d.root with
      | some cels => decide (ci < cels.length)
      | none => false
  | .setMask _, _ => true
  | .maskPos _ _, _ => true
  | .setStockImgtype _, _ => true
  | .setImgtype _, _ => true

/-- Replays a list of inverse records, first record first (callers pass
the group reversed, per the LIFO replay rule). -/
def undoList : List URec → Doc → Doc
  | [], d => d
  | r :: rs, d => undoList rs (undoRec r d)

/-- Document after a sequence of primitive mutations. -/
def runDoc : List Prim → Doc → Doc
  | [], d => d
  | p :: ps, d => runDoc ps (applyPrim p d)

/-- Records accumulated in the open journal group by a sequence of
primitive mutations issued through an enabled transaction, in forward
order. -/
def runRecs : List Prim → Doc → List URec
  | [], _ => []
  | p :: ps, d => recordPrim p d ++ runRecs ps (applyPrim p d)

/-- Validity of a whole sequence of primitive calls, each checked against
the document state it actually runs in. -/
def seqValid : List Prim → Doc → Bool
  | [], _ => true
  | p :: ps, d => valid p d && seqValid ps (applyPrim p d)

/-! ### Journal state and transaction scope guard

The journal state machine (open group, undo stack, redo slot) is modelled
from the spec; the guard's constructor, commit and destructor follow
UndoTransaction in the source. -/

structure Journal where
  enabled : Bool
  groups : List (List URec)
  redo : List (List URec)
  openGroup : Option (List URec)

/-- Opens a new group (undo_open). -/
def undoOpen (j : Journal) : Journal := { j with openGroup := some [] }

/-- Closes the open group, appending it to the undo stack (undo_close). -/
def undoClose (j : Journal) : Journal :=
  match j.openGroup with
  | some g => { j with openGroup := none, groups := g :: j.groups }
  | none => j

/-- Appends inverse records to the currently open group. -/
def appendOpen (rs : List URec) (j : Journal) : Journal :=
  match j.openGroup with
  | some g => { j with openGroup := some (g ++ rs) }
  | none => j

/-- Pops the most recent group and replays its records in strict LIFO
order against the document, moving the group to the redo slot (doUndo). -/
def doUndo (j : Journal) (d : Doc) : Journal × Doc :=
  match j.groups with
  | [] => (j, d)
  | g :: gs => ({ j with groups := gs, redo := g :: j.redo }, undoList g.reverse d)

/-- Discards the redo slot (clearRedo). -/
def clearRedo (j : Journal) : Journal := { j with redo := [] }

/-- Transaction handle: the committed flag and the enabled flag cached at
construction (UndoTransaction fields m_committed, m_enabledFlag). -/
structure Tx where
  committed : Bool
  enabled : Bool

/-- UndoTransaction constructor: caches the enabled flag and, if enabled,
opens a journal group. -/
def openTx (j : Journal) : Tx × Journal :=
  ({ committed := false, enabled := j.enabled },
   if j.enabled then undoOpen j else j)

/-- UndoTransaction::commit. -/
def commitTx (tx : Tx) : Tx := { tx with committed := true }

/-- UndoTransaction destructor: if the cached enabled flag is set, closes
the group; when not committed, additionally replays the group's inverses
(doUndo) and clears the redo history (clearRedo). -/
def destroyTx (tx : Tx) (j : Journal) (d : Doc) : Journal × Doc :=
  if tx.enabled then
    let j1 := undoClose j
    if tx.committed then (j1, d)
    else
      let jd := doUndo j1 d
      (clearRedo jd.1, jd.2)
  else (j, d)

/-- One primitive issued through a transaction: the inverse records are
appended to the open group when the cached enabled flag is set, and the
mutation is applied. -/
def stepTx (tx : Tx) (p : Prim) (j : Journal) (d : Doc) : Journal × Doc :=
  ((if tx.enabled then appendOpen (recordPrim p d) j else j), applyPrim p d)

/-- Runs a composite operation, i.e. a sequence of primitive mutations,
through a transaction. -/
def runTx (tx : Tx) : List Prim → Journal → Doc → Journal × Doc
  | [], j, d => (j, d)
  | p :: ps, j, d => runTx tx ps (stepTx tx p j d).1 (stepTx tx p j d).2

/-- Opens a transaction on the document, runs the composite operation ps,
and destroys the transaction without commit; returns the resulting
document (the rollback path of the destructor). -/
def txRollbackRun (j : Journal) (d : Doc) (ps : List Prim) : Doc :=
  let tj := openTx j
  let jd := runTx tj.1 ps tj.2 d
  (destroyTx tj.1 jd.1 jd.2).2

/-- Observational equality of document states, exactly the observables
the round-trip property names: layer tree shape with per-layer cel sets
(root), stock contents by index, mask, frame count and durations, and the
current-frame/current-layer selection. -/
def ObsEq (a b : Doc) : Prop :=
  a.root = b.root ∧ a.stock = b.stock ∧ a.mask = b.mask ∧
  a.totalFrames = b.totalFrames ∧ a.frlens = b.frlens ∧
  a.currentFrame = b.currentFrame ∧ a.currentLayer = b.currentLayer


/-! ### Step traces

Each primitive step of the source is also rendered as an ordered event
trace: journal-record events and document-mutation events, in the order
the C++ statements execute.  This settles the temporal claims about
logging before mutating. -/

inductive MutKind : Type where
  | stockAdd
  | stockRemove
  | imageFree
  | stockReplace
  | maskRepoRemove
  | maskFreeOld
  | maskRepoAdd
  | maskNone

inductive TraceEv : Type where
  | record (r : URec)
  | mutate (m : MutKind)

def TraceEv.isRecord : TraceEv → Bool
  | .record _ => true
  | .mutate _ => false

def TraceEv.isMaskNoneMut : TraceEv → Bool
  | .mutate .maskNone => true
  | _ => false

/-- Property claimed of every primitive step: within the step's trace,
every journal record is made before any document mutation (once a
mutation happens, no further record follows). -/
def logsBeforeMutating : List TraceEv → Bool
  | [] => true
  | .record _ :: tr => logsBeforeMutating tr
  | .mutate _ :: tr => tr.all (fun e => !e.isRecord)

/-- Property that the first journal record of a trace is made before the
mask-clearing mutation: scanning past leading mutations, there is a
record, and a maskNone mutation occurs after it. -/
def recBeforeMaskNone : List TraceEv → Bool
  | [] => false
  | .record _ :: tr => tr.any TraceEv.isMaskNoneMut
  | .mutate _ :: tr => recBeforeMaskNone tr

/-- Event trace of UndoTransaction::addImageInStock (source lines
242-253) in an enabled transaction: the image is inserted into the Stock
first (the inverse record needs the index the insertion returns) and the
inverse is recorded after that mutation. -/
def addImageInStockTrace (d : Doc) : List TraceEv :=
  [.mutate .stockAdd, .record (.imageAdded d.stock.length)]

/-- Event trace of UndoTransaction::removeImageFromStock (source lines
258-270): the inverse is recorded first, then the image is removed from
the Stock and physically freed. -/
def removeImageFromStockTrace (d : Doc) (idx : Nat) : List TraceEv :=
  [.record (.imageRemoved idx (match getIdx idx d.stock with
     | some (some img) => img
     | _ => 0)),
   .mutate .stockRemove,
   .mutate .imageFree]

/-- Event trace of UndoTransaction::replaceStockImage (source lines
272-286): the inverse is recorded first, then the slot is replaced and
the old image freed. -/
def replaceStockImageTrace (d : Doc) (idx : Nat) : List TraceEv :=
  [.record (.imageReplaced idx (match getIdx idx d.stock with
     | some (some img) => img
     | _ => 0)),
   .mutate .stockReplace,
   .mutate .imageFree]

/-- Event trace of UndoTransaction::deselectMask (source lines
1044-1063): any previously stashed repository mask is removed and freed,
the active mask is copied into the repository, then the mask inverse is
recorded, and only then is the active mask cleared.  hasOldDeselected
says whether the repository already held a stashed mask. -/
def deselectMaskTrace (d : Doc) (hasOldDeselected : Bool) : List TraceEv :=
  (if hasOldDeselected then [.mutate .maskRepoRemove, .mutate .maskFreeOld] else [])
    ++ [.mutate .maskRepoAdd, .record (.maskSet d.mask), .mutate .maskNone]

/-! ### Composite operations -/

/-- Lookup of a cel by frame within one layer's cel list
(LayerImage::getCel); the position found stands for the returned
pointer. -/
def celAtFrame (f : Int) : List Cel → Option Nat
  | [] => none
  | c :: cs => if c.frame = f then some 0 else (celAtFrame f cs).map (fun k => k + 1)

/-- Liveness scan of UndoTransaction::removeCel (source lines 730-739):
walks frames 0..total-1 of the SAME layer looking for a cel other than
the one at position ci that references stock slot img.  The fuel argument
counts the frames still to scan: frame n-1 is checked at fuel n. -/
def usedScan (cels : List Cel) (ci : Nat) (img : Nat) : Nat → Bool
  | 0 => false
  | n+1 =>
    usedScan cels ci img n ||
      (match celAtFrame (n : Int) cels with
       | some k => !(k == ci) &&
           (match getIdx k cels with
            | some c2 => c2.image == img
            | none => false)
       | none => false)

/-- Core of UndoTransaction::removeCel on one layer's cel list, threading
the stock: the cel at position ci is removed, and its stock slot is freed
exactly when the same-layer scan finds no other user. -/
def removeCelCore (ci : Nat) (total : Int) (cels : List Cel)
    (stock : List (Option Img)) : List Cel × List (Option Img) :=
  match getIdx ci cels with
  | none => (cels, stock)
  | some cel =>
    (eraIdx ci cels,
     if usedScan cels ci cel.image total.toNat then stock
     else setIdx cel.image none stock)

/-- UndoTransaction::removeCel (source lines 725-754) on the document:
removes the cel at position ci of the image layer addressed by (fp, li),
freeing its stock slot when the scan over this layer's frames finds no
other cel sharing it. -/
def removeCelOp (fp : List Nat) (li ci : Nat) (d : Doc) : Doc :=
  match celsAt fp li d.root with
  | none => d
  | some cels =>
    let pair := removeCelCore ci d.totalFrames cels d.stock
    { d with root := updLayerAt (mapCels (fun _ => pair.1)) fp li d.root,
             stock := pair.2 }

/-- Layer node at a nonempty path (the node itself, not its children). -/
def getNodeAt : List Nat → List Layer → Option Layer
  | [], _ => none
  | [i], ls => getIdx i ls
  | i :: p, ls =>
    match getIdx i ls with
    | some (.folder _ _ cs) => getNodeAt p cs
    | _ => none

/-- UndoTransaction::removeLayer (source lines 311-342): when the removed
layer is the current selection, selection moves to the previous sibling,
else the next sibling, else the parent folder unless the parent is the
sprite's root folder (then no layer is selected); the layer is then
detached from its parent and destroyed. -/
def removeLayerOp (fp : List Nat) (li : Nat) (d : Doc) : Doc :=
  match getFolderAt fp d.root with
  | none => d
  | some cs =>
    match getIdx li cs with
    | none => d
    | some layer =>
      let d1 :=
        if d.currentLayer = some layer.lid then
          let sel : Option Nat :=
            match (if li = 0 then none else getIdx (li - 1) cs) with
            | some l2 => some l2.lid
            | none =>
              match getIdx (li + 1) cs with
              | some l2 => some l2.lid
              | none =>
                match fp with
                | [] => none
                | _ :: _ => (getNodeAt fp d.root).map Layer.lid
          applyPrim (.setLayerSel sel) d
        else d
      applyPrim (.removeLayer fp li) d1

/-- Cel displacement loop of removeFrameOfLayer (source lines 665-667):
for each frame fr, fr+1, ... in order (fuel many), the cel found at that
frame, when present, is moved one frame earlier. -/
def shiftLoop : Nat → Int → List Cel → List Cel
  | 0, _, cels => cels
  | n+1, fr, cels =>
    shiftLoop n (fr + 1)
      (match celAtFrame fr cels with
       | some k => modIdx k (fun c => { c with frame := c.frame - 1 }) cels
       | none => cels)

mutual

/-- UndoTransaction::removeFrameOfLayer (source lines 654-680) on one
layer: an image layer drops its cel at frame f through removeCel (freeing
the stock slot when unshared within the layer) and displaces later cels
one frame back; a folder recurses over its children.  The stock is
threaded through the traversal. -/
def removeFrameOfLayer (total f : Int) :
    Layer → List (Option Img) → Layer × List (Option Img)
  | .image lid fl cels, stock =>
    let pair :=
      match celAtFrame f cels with
      | some ci => removeCelCore ci total cels stock
      | none => (cels, stock)
    (.image lid fl (shiftLoop (total - (f + 1)).toNat (f + 1) pair.1), pair.2)
  | .folder lid fl cs, stock =>
    let pair := removeFrameOfLayers total f cs stock
    (.folder lid fl pair.1, pair.2)

def removeFrameOfLayers (total f : Int) :
    List Layer → List (Option Img) → List Layer × List (Option Img)
  | [], stock => ([], stock)
  | l :: ls, stock =>
    let p1 := removeFrameOfLayer total f l stock
    let p2 := removeFrameOfLayers total f ls p1.2
    (p1.1 :: p2.1, p2.2)

end

/-- UndoTransaction::removeFrame (source lines 635-652): removes the
frame from every layer, then clamps the current frame when it would fall
outside the shrunk range, then decrements the frame counter. -/
def removeFrameOp (f : Int) (d : Doc) : Doc :=
  let pair := removeFrameOfLayers d.totalFrames f d.root d.stock
  let d1 := { d with root := pair.1, stock := pair.2 }
  let newTotal := d.totalFrames - 1
  let d2 := if d1.currentFrame ≥ newTotal
    then applyPrim (.setFrame (newTotal - 1)) d1 else d1
  applyPrim (.setFrames newTotal) d2

mutual

/-- Per-layer effect removeFrame is claimed to have: drop the cel at
frame f and renumber every later cel one frame earlier. -/
def remFrameExpected (f : Int) : Layer → Layer
  | .image lid fl cels =>
    .image lid fl ((cels.filter (fun c => !(c.frame == f))).map
      (fun c => if f < c.frame then { c with frame := c.frame - 1 } else c))
  | .folder lid fl cs => .folder lid fl (remFrameExpectedList f cs)

def remFrameExpectedList (f : Int) : List Layer → List Layer
  | [] => []
  | l :: ls => remFrameExpected f l :: remFrameExpectedList f ls

end

/-- Frame sanity of one cel list: pairwise distinct frames, all inside
[0, total) — the documented invariant (at most one cel per frame). -/
def framesOkCels (total : Int) (cels : List Cel) : Bool :=
  decide ((cels.map (fun c => c.frame)).Nodup) &&
    cels.all (fun c => decide (0 ≤ c.frame) && decide (c.frame < total))

mutual

def framesOkLayer (total : Int) : Layer → Bool
  | .image _ _ cels => framesOkCels total cels
  | .folder _ _ cs => framesOkLayers total cs

def framesOkLayers (total : Int) : List Layer → Bool
  | [] => true
  | l :: ls => framesOkLayer total l && framesOkLayers total ls

end

/-- Forward duration-shifting loop of moveFrameBefore (source lines
811-812): for fuel-many slots c, c+1, ... ascending, slot c receives the
value slot c+1 holds when c is written. -/
def durShiftFwd : Nat → Int → (Int → Int) → Int → Int
  | 0, _, fr => fr
  | n+1, c, fr => durShiftFwd n (c + 1) (fun k => if k = c then fr (c + 1) else fr k)

/-- Backward duration-shifting loop of moveFrameBefore (source lines
818-819): for fuel-many slots c, c-1, ... descending, slot c receives the
value slot c-1 holds when c is written. -/
def durShiftBwd : Nat → Int → (Int → Int) → Int → Int
  | 0, _, fr => fr
  | n+1, c, fr => durShiftBwd n (c - 1) (fun k => if k = c then fr (c - 1) else fr k)

/-- New frame index of a cel under moveFrameBefore's remapping (source
lines 839-865): the cel at the moved frame jumps to the target slot and
cels strictly between the two indices shift by one toward the vacated
slot. -/
def celNewFrame (frame before cf : Int) : Int :=
  if frame < before then
    if cf = frame then before - 1
    else if frame < cf ∧ cf < before then cf - 1
    else cf
  else if before < frame then
    if cf = frame then before
    else if before ≤ cf ∧ cf < frame then cf + 1
    else cf
  else cf

mutual

/-- UndoTransaction::moveFrameBeforeLayer (source lines 829-880). -/
def moveFrameLayer (frame before : Int) : Layer → Layer
  | .image lid fl cels =>
    .image lid fl (cels.map (fun c => { c with frame := celNewFrame frame before c.frame }))
  | .folder lid fl cs => .folder lid fl (moveFrameLayers frame before cs)

def moveFrameLayers (frame before : Int) : List Layer → List Layer
  | [] => []
  | l :: ls => moveFrameLayer frame before l :: moveFrameLayers frame before ls

end

/-- UndoTransaction::moveFrameBefore (source lines 798-827): a no-op
unless the indices differ and both lie in [0, totalFrames); otherwise the
per-frame durations are rotated by the two shifting loops plus the final
write of the saved duration, and every cel's frame index is remapped. -/
def moveFrameBeforeOp (frame before : Int) (d : Doc) : Doc :=
  if frame ≠ before ∧ 0 ≤ frame ∧ frame < d.totalFrames ∧
      0 ≤ before ∧ before < d.totalFrames then
    let aux := d.frlens frame
    let fr1 : Int → Int :=
      if frame < before then
        let f2 := durShiftFwd (before - 1 - frame).toNat frame d.frlens
        fun k => if k = before - 1 then aux else f2 k
      else
        let f2 := durShiftBwd (frame - before).toNat frame d.frlens
        fun k => if k = before then aux else f2 k
    { d with frlens := fr1, root := moveFrameLayers frame before d.root }
  else d

/-- UndoTransaction::newLayer (source lines 291-306): a fresh empty image
layer (identity lid) is appended to the child list of the sprite's root
folder (m_sprite->getFolder()) and becomes the current selection; the new
layer is returned. -/
def newLayerOp (lid : Nat) (d : Doc) : Doc × Layer :=
  let layer : Layer := .image lid 0 []
  let d1 := applyPrim (.addLayer [] layer) d
  (applyPrim (.setLayerSel (some lid)) d1, layer)

/-- Image mode constant IMAGE_RGB. -/
def IMAGE_RGB : Int := 0
/-- Image mode constant IMAGE_GRAYSCALE. -/
def IMAGE_GRAYSCALE : Int := 1
/-- Image mode constant IMAGE_INDEXED. -/
def IMAGE_INDEXED : Int := 2

/-- Opaque palette value standing for Palette::createGrayscale(). -/
def grayPalette : Nat := 256

/-- Inverse records logged by the stock conversion loop of setImgType
(source lines 196-207): one replace-image record per non-null slot, in
slot order; null slots are skipped by the loop. -/
def convRecs (idx : Nat) : List (Option Img) → List URec
  | [] => []
  | none :: rest => convRecs (idx + 1) rest
  | some img :: rest => .imageReplaced idx img :: convRecs (idx + 1) rest

/-- UndoTransaction::setImgType (source lines 178-234), parameterized by
the external pixel conversion capability (quantization::convert_imgtype
with the dithering method, color map and background arguments applied).
Returns the mutated document together with the inverse records logged (in
forward order).  The destroyed overlay cel (destroyExtraCel) is a cache
outside the document state.  The sprite's palette container is modelled
from the spec: moving to grayscale removes every palette and installs one
generated grayscale palette. -/
def setImgTypeOp (convert : Img → Img) (newType : Int) (d : Doc) :
    Doc × List URec :=
  if d.imgtype = newType then (d, [])
  else
    let recs1 : List URec := [.stockImgtypeSet d.stockImgtype]
    let d1 := applyPrim (.setStockImgtype newType) d
    let recs2 := convRecs 0 d1.stock
    let d2 := { d1 with stock := d1.stock.map (fun s => s.map convert) }
    let recs3 : List URec := [.imgtypeSet d2.imgtype]
    let d3 := applyPrim (.setImgtype newType) d2
    if newType = IMAGE_GRAYSCALE then
      ({ d3 with palettes := [grayPalette] },
       recs1 ++ recs2 ++ recs3 ++ d3.palettes.map (fun pal => .paletteRemoved pal))
    else (d3, recs1 ++ recs2 ++ recs3)

/-- Union bounding box accumulated by the autocrop scan. -/
structure Bounds where
  x1 : Int
  y1 : Int
  x2 : Int
  y2 : Int

/-- Rectangle reported by the external shrink capability
(image_shrink_rect). -/
structure ShrinkRect where
  u1 : Int
  v1 : Int
  u2 : Int
  v2 : Int

/-- INT_MAX as used to seed the autocrop bounding box. -/
def INT_MAX_C : Int := 2147483647
/-- INT_MIN as used to seed the autocrop bounding box. -/
def INT_MIN_C : Int := -2147483648

/-- Initial (empty) autocrop bounding box. -/
def initBounds : Bounds :=
  { x1 := INT_MAX_C, y1 := INT_MAX_C, x2 := INT_MIN_C, y2 := INT_MIN_C }

/-- Emptiness test of the accumulated bounding box (the x1 > x2 or
y1 > y2 early-return condition of autocropSprite). -/
def boundsEmpty (b : Bounds) : Bool :=
  decide (b.x2 < b.x1) || decide (b.y2 < b.y1)

/-- Scan loop of autocropSprite (source lines 151-166): for fuel-many
frames fr, fr+1, ... the sprite's current frame is set to the frame, the
sprite is rendered, and the shrunk content rectangle (when any pixel
differs from the reference pixel) is unioned into the bounds. -/
def autocropScan (render : Doc → Img) (shrink : Img → Option ShrinkRect) :
    Nat → Int → Doc → Bounds → Doc × Bounds
  | 0, _, d, b => (d, b)
  | n+1, fr, d, b =>
    let d1 := { d with currentFrame := fr }
    let b1 :=
      match shrink (render d1) with
      | some r => { x1 := min b.x1 r.u1, y1 := min b.y1 r.v1,
                    x2 := max b.x2 r.u2, y2 := max b.y2 r.v2 }
      | none => b
    autocropScan render shrink n (fr + 1) d1 b1

mutual

/-- UndoTransaction::displaceLayers (source lines 369-392): offsets every
cel of every image layer by (dx, dy), recursively through folders. -/
def displaceLayer (dx dy : Int) : Layer → Layer
  | .image lid fl cels =>
    .image lid fl (cels.map (fun c => { c with x := c.x + dx, y := c.y + dy }))
  | .folder lid fl cs => .folder lid fl (displaceLayersList dx dy cs)

def displaceLayersList (dx dy : Int) : List Layer → List Layer
  | [] => []
  | l :: ls => displaceLayer dx dy l :: displaceLayersList dx dy ls

end

/-- Background flag bit of a layer's flags word. -/
def isBackground (fl : Nat) : Bool := fl.testBit 2

/-- UndoTransaction::cropCel (source lines 890-903) threading the stock:
the cel's stock slot is replaced with the cropped image and the cel is
repositioned to (x, y). -/
def cropCelCore (cropImg : Img → Int → Int → Int → Int → Int → Img)
    (x y w h bg : Int) (c : Cel) (stock : List (Option Img)) :
    Cel × List (Option Img) :=
  let old := match getIdx c.image stock with
    | some (some img) => img
    | _ => 0
  ({ c with x := x, y := y },
   setIdx c.image (some (cropImg old (x - c.x) (y - c.y) w h bg)) stock)

/-- UndoTransaction::cropLayer's per-cel loop (source lines 360-363). -/
def cropCels (cropImg : Img → Int → Int → Int → Int → Int → Img)
    (x y w h bg : Int) : List Cel → List (Option Img) →
    List Cel × List (Option Img)
  | [], stock => ([], stock)
  | c :: cs, stock =>
    let p1 := cropCelCore cropImg x y w h bg c stock
    let p2 := cropCels cropImg x y w h bg cs p1.2
    (p1.1 :: p2.1, p2.2)

mutual

/-- Crop of the background layer inside cropSprite.  Modelled from the
spec for getBackgroundLayer: at most one layer carries the background
flag, so applying cropLayer to every background-flagged image layer in
the tree is the lookup-then-crop of the source. -/
def cropBackgroundLayer (cropImg : Img → Int → Int → Int → Int → Int → Img)
    (x y w h bg : Int) : Layer → List (Option Img) → Layer × List (Option Img)
  | .image lid fl cels, stock =>
    if isBackground fl then
      let p := cropCels cropImg x y w h bg cels stock
      (.image lid fl p.1, p.2)
    else (.image lid fl cels, stock)
  | .folder lid fl cs, stock =>
    let p := cropBackgroundLayers cropImg x y w h bg cs stock
    (.folder lid fl p.1, p.2)

def cropBackgroundLayers (cropImg : Img → Int → Int → Int → Int → Int → Img)
    (x y w h bg : Int) : List Layer → List (Option Img) →
    List Layer × List (Option Img)
  | [], stock => ([], stock)
  | l :: ls, stock =>
    let p1 := cropBackgroundLayer cropImg x y w h bg l stock
    let p2 := cropBackgroundLayers cropImg x y w h bg ls p1.2
    (p1.1 :: p2.1, p2.2)

end

/-- UndoTransaction::cropSprite (source lines 124-136): resize, displace
every layer's cels by (-x, -y), crop the background layer to the new
canvas, and reposition a non-empty mask by the same offset. -/
def cropSpriteOp (cropImg : Img → Int → Int → Int → Int → Int → Img)
    (x y w h bg : Int) (d : Doc) : Doc :=
  let d1 := applyPrim (.setSize w h) d
  let d2 := { d1 with root := displaceLayersList (-x) (-y) d1.root }
  let p := cropBackgroundLayers cropImg 0 0 w h bg d2.root d2.stock
  let d3 := { d2 with root := p.1, stock := p.2 }
  if d3.mask.empty then d3
  else { d3 with mask := { d3.mask with x := d3.mask.x - x, y := d3.mask.y - y } }

/-- UndoTransaction::autocropSprite (source lines 138-176), parameterized
by the external render and shrink capabilities: saves the current frame,
scans every frame for the union content bounding box (temporarily moving
the sprite's current frame), restores the current frame, and then either
returns with no further change (empty box) or delegates to cropSprite. -/
def autocropOp (render : Doc → Img) (shrink : Img → Option ShrinkRect)
    (cropImg : Img → Int → Int → Int → Int → Int → Img) (bg : Int)
    (d : Doc) : Doc :=
  let oldFrame := d.currentFrame
  let p := autocropScan render shrink d.totalFrames.toNat 0 d initBounds
  let d1 := { p.1 with currentFrame := oldFrame }
  if p.2.x1 > p.2.x2 ∨ p.2.y1 > p.2.y2 then d1
  else cropSpriteOp cropImg p.2.x1 p.2.y1 (p.2.x2 - p.2.x1 + 1)
    (p.2.y2 - p.2.y1 + 1) bg d1

/-! ### Concrete sample states used by witnesses and counterexamples -/

/-- Small generic document: one frame, one stock image, no layers. -/
def sampleDoc : Doc where
  totalFrames := 1
  currentFrame := 0
  currentLayer := none
  width := 2
  height := 2
  imgtype := 0
  stockImgtype := 0
  frlens := fun _ => 100
  stock := [some 3]
  root := []
  mask := { x := 0, y := 0, w := 0, h := 0, bits := 0, empty := true }
  palettes := [7]

/-- Composite operation exercised in the rollback witness: moves the
current frame, stocks an image, adds a layer with a cel on it, removes a
stock image, and replaces the mask. -/
def rollbackPrims : List Prim :=
  [.setFrame 2, .addImage 7, .addLayer [] (.image 5 0 []),
   .addCel [] 0 { frame := 2, x := 0, y := 0, opacity := 255, image := 0 },
   .removeImage 1,
   .setMask { x := 1, y := 1, w := 2, h := 2, bits := 9, empty := false }]

/-- Enabled journal with empty history. -/
def emptyJournal : Journal where
  enabled := true
  groups := []
  redo := []
  openGroup := none

/-- Journal with an open group and some history, for the commit witness. -/
def commitJournal : Journal where
  enabled := true
  groups := [[.frame 0]]
  redo := [[.frames 2]]
  openGroup := some [.frame 5]

/-- Two image layers whose single cels share stock slot 0. -/
def sharedSlotDoc : Doc where
  totalFrames := 1
  currentFrame := 0
  currentLayer := none
  width := 1
  height := 1
  imgtype := 0
  stockImgtype := 0
  frlens := fun _ => 100
  stock := [some 42]
  root := [.image 1 0 [{ frame := 0, x := 0, y := 0, opacity := 255, image := 0 }],
           .image 2 0 [{ frame := 0, x := 1, y := 1, opacity := 255, image := 0 }]]
  mask := { x := 0, y := 0, w := 0, h := 0, bits := 0, empty := true }
  palettes := []

/-- Current selection inside a nested folder (layer 2 inside folder 1). -/
def nestedSelDoc : Doc where
  totalFrames := 1
  currentFrame := 0
  currentLayer := some 2
  width := 1
  height := 1
  imgtype := 0
  stockImgtype := 0
  frlens := fun _ => 100
  stock := []
  root := [.folder 1 0 [.image 2 0 []]]
  mask := { x := 0, y := 0, w := 0, h := 0, bits := 0, empty := true }
  palettes := []

/-- Folder with three sibling layers, the middle one selected. -/
def siblingsDoc : Doc where
  totalFrames := 1
  currentFrame := 0
  currentLayer := some 12
  width := 1
  height := 1
  imgtype := 0
  stockImgtype := 0
  frlens := fun _ => 100
  stock := []
  root := [.folder 10 0 [.image 11 0 [], .image 12 0 [], .image 13 0 []]]
  mask := { x := 0, y := 0, w := 0, h := 0, bits := 0, empty := true }
  palettes := []

/-- The removeFrame scenario: a 5-frame sprite whose layer L has cels at
frames 1, 2 and 3. -/
def scenarioRemoveDoc : Doc where
  totalFrames := 5
  currentFrame := 0
  currentLayer := some 1
  width := 4
  height := 4
  imgtype := 0
  stockImgtype := 0
  frlens := fun _ => 100
  stock := [some 20, some 21, some 22]
  root := [.image 1 0 [{ frame := 1, x := 0, y := 0, opacity := 255, image := 0 },
                       { frame := 2, x := 0, y := 0, opacity := 255, image := 1 },
                       { frame := 3, x := 0, y := 0, opacity := 255, image := 2 }]]
  mask := { x := 0, y := 0, w := 0, h := 0, bits := 0, empty := true }
  palettes := []

/-- The moveFrameBefore scenario: a 4-frame sprite with one cel per frame
and distinguishable frame durations. -/
def scenarioMoveDoc : Doc where
  totalFrames := 4
  currentFrame := 0
  currentLayer := some 1
  width := 4
  height := 4
  imgtype := 0
  stockImgtype := 0
  frlens := fun k => 100 + k
  stock := [some 30, some 31, some 32, some 33]
  root := [.image 1 0 [{ frame := 0, x := 0, y := 0, opacity := 255, image := 0 },
                       { frame := 1, x := 0, y := 0, opacity := 255, image := 1 },
                       { frame := 2, x := 0, y := 0, opacity := 255, image := 2 },
                       { frame := 3, x := 0, y := 0, opacity := 255, image := 3 }]]
  mask := { x := 0, y := 0, w := 0, h := 0, bits := 0, empty := true }
  palettes := []

/-- RGB document with two stock images and two palettes, for the image
mode conversion witness. -/
def indexedDoc : Doc where
  totalFrames := 1
  currentFrame := 0
  currentLayer := none
  width := 2
  height := 2
  imgtype := 0
  stockImgtype := 0
  frlens := fun _ => 100
  stock := [some 3, none, some 4]
  root := []
  mask := { x := 0, y := 0, w := 0, h := 0, bits := 0, empty := true }
  palettes := [7, 8]

/-! ### Lemmas and theorems -/

theorem getIdx_modIdx {α : Type} (n : Nat) (f : α → α) (l : List α) :
    getIdx n (modIdx n f l) = (getIdx n l).map f := by
  induction l generalizing n with
  | nil => cases n <;> simp [getIdx, modIdx]
  | cons x xs ih => cases n <;> simp [getIdx, modIdx, ih]

theorem modIdx_modIdx {α : Type} (n : Nat) (f g : α → α) (l : List α) :
    modIdx n f (modIdx n g l) = modIdx n (fun x => f (g x)) l := by
  induction l generalizing n with
  | nil => simp [modIdx]
  | cons x xs ih => cases n <;> simp [modIdx, ih]

theorem modIdx_eq_self {α : Type} {n : Nat} {f : α → α} {l : List α} {x : α}
    (h : getIdx n l = some x) (hf : f x = x) : modIdx n f l = l := by
  induction l generalizing n with
  | nil => simp [getIdx] at h
  | cons y ys ih =>
    cases n with
    | zero =>
      simp [getIdx] at h
      simp [modIdx, h ▸ hf]
    | succ m =>
      simp [getIdx] at h
      simp [modIdx, ih h]

theorem setIdx_setIdx {α : Type} (n : Nat) (a b : α) (l : List α) :
    setIdx n a (setIdx n b l) = setIdx n a l := by
  induction l generalizing n with
  | nil => simp [setIdx]
  | cons x xs ih => cases n <;> simp [setIdx, ih]

theorem setIdx_self {α : Type} {n : Nat} {a : α} {l : List α}
    (h : getIdx n l = some a) : setIdx n a l = l := by
  induction l generalizing n with
  | nil => simp [getIdx] at h
  | cons x xs ih =>
    cases n with
    | zero => simp [getIdx] at h; simp [setIdx, h]
    | succ m => simp [getIdx] at h; simp [setIdx, ih h]

theorem getIdx_setIdx {α : Type} {n : Nat} (a : α) {l : List α}
    (h : (getIdx n l).isSome) : getIdx n (setIdx n a l) = some a := by
  induction l generalizing n with
  | nil => simp [getIdx] at h
  | cons x xs ih => cases n <;> simp_all [getIdx, setIdx]

theorem getIdx_isSome_iff {α : Type} (n : Nat) (l : List α) :
    (getIdx n l).isSome ↔ n < l.length := by
  induction l generalizing n with
  | nil => cases n <;> simp [getIdx]
  | cons x xs ih => cases n <;> simp [getIdx, ih, Nat.succ_lt_succ_iff]

theorem length_eraIdx {α : Type} {n : Nat} {l : List α} (h : n < l.length) :
    (eraIdx n l).length = l.length - 1 := by
  induction l generalizing n with
  | nil => simp at h
  | cons x xs ih =>
    cases n with
    | zero => simp [eraIdx]
    | succ m =>
      simp at h
      have hx : m < xs.length := h
      cases xs with
      | nil => simp at hx
      | cons y ys => simp [eraIdx, ih hx]

theorem getIdx_insIdx {α : Type} {n : Nat} {l : List α} (a : α)
    (h : n ≤ l.length) : getIdx n (insIdx n a l) = some a := by
  induction l generalizing n with
  | nil =>
    have hn : n = 0 := Nat.le_zero.mp h
    subst hn
    simp [insIdx, getIdx]
  | cons x xs ih =>
    cases n with
    | zero => simp [insIdx, getIdx]
    | succ m =>
      simp at h
      simp [insIdx, getIdx, ih h]

theorem eraIdx_length_append {α : Type} (l : List α) (a : α) :
    eraIdx l.length (l ++ [a]) = l := by
  induction l with
  | nil => simp [eraIdx]
  | cons x xs ih => simp [eraIdx, ih]

theorem insIdx_eraIdx {α : Type} {n : Nat} {l : List α} {x : α}
    (h : getIdx n l = some x) : insIdx n x (eraIdx n l) = l := by
  induction l generalizing n with
  | nil => simp [getIdx] at h
  | cons y ys ih =>
    cases n with
    | zero => simp [getIdx] at h; simp [insIdx, eraIdx, h]
    | succ m => simp [getIdx] at h; simp [insIdx, eraIdx, ih h]

theorem eraIdx_insIdx {α : Type} {n : Nat} {l : List α} (a : α)
    (h : n ≤ l.length) : eraIdx n (insIdx n a l) = l := by
  induction l generalizing n with
  | nil =>
    have hn : n = 0 := Nat.le_zero.mp h
    subst hn
    simp [insIdx, eraIdx]
  | cons y ys ih =>
    cases n with
    | zero => simp [insIdx, eraIdx]
    | succ m =>
      simp at h
      simp [insIdx, eraIdx, ih h]


theorem updFolderAt_cancel (f g : List Layer → List Layer) (p : List Nat)
    (ls : List Layer) :
    ∀ cs, getFolderAt p ls = some cs → f (g cs) = cs →
      updFolderAt f p (updFolderAt g p ls) = ls := by
  induction p generalizing ls with
  | nil =>
    intro cs h hfg
    simp [getFolderAt] at h
    subst h
    simpa [updFolderAt] using hfg
  | cons i p ih =>
    intro cs h hfg
    simp only [getFolderAt] at h
    split at h
    case _ lid fl cs0 heq =>
      simp only [updFolderAt]
      rw [modIdx_modIdx]
      refine modIdx_eq_self heq ?_
      simp [ih cs0 cs h hfg]
    case _ => exact absurd h (by simp)

theorem updLayerAt_cancel (f g : Layer → Layer) (p : List Nat) (i : Nat)
    (ls : List Layer) (l : Layer)
    (h : getLayerAt p i ls = some l) (hfg : f (g l) = l) :
    updLayerAt f p i (updLayerAt g p i ls) = ls := by
  simp only [getLayerAt] at h
  cases hcs : getFolderAt p ls with
  | none => rw [hcs] at h; simp at h
  | some cs =>
    rw [hcs] at h
    simp only [Option.bind] at h
    refine updFolderAt_cancel _ _ _ _ cs hcs ?_
    rw [modIdx_modIdx]
    exact modIdx_eq_self h hfg


theorem undoList_append (rs1 rs2 : List URec) (d : Doc) :
    undoList (rs1 ++ rs2) d = undoList rs2 (undoList rs1 d) := by
  induction rs1 generalizing d with
  | nil => simp [undoList]
  | cons r rs ih => simp [undoList, ih]

/-- Replaying the inverse records of one valid primitive, in LIFO order,
on the mutated document restores the document exactly. -/
theorem prim_inverts (p : Prim) (d : Doc) (h : valid p d = true) :
    undoList (recordPrim p d).reverse (applyPrim p d) = d := by
  cases p with
  | setFrames n => simp [recordPrim, applyPrim, undoList, undoRec]
  | setFrame n => simp [recordPrim, applyPrim, undoList, undoRec]
  | setLayerSel sel => simp [recordPrim, applyPrim, undoList, undoRec]
  | setSize w hh => simp [recordPrim, applyPrim, undoList, undoRec]
  | setFrlen fr ms =>
    simp only [recordPrim, applyPrim, undoList, undoRec, List.reverse_singleton]
    have hf : (fun k => if k = fr then d.frlens fr
        else if k = fr then ms else d.frlens k) = d.frlens := by
      funext k
      by_cases hk : k = fr <;> simp [hk]
    rw [hf]
  | addImage img =>
    simp only [recordPrim, applyPrim, undoList, undoRec, List.reverse_singleton]
    rw [eraIdx_length_append]
  | removeImage idx =>
    simp only [valid] at h
    cases hidx : getIdx idx d.stock with
    | none => rw [hidx] at h; simp at h
    | some o =>
      cases o with
      | none => rw [hidx] at h; simp at h
      | some img =>
        simp only [recordPrim, applyPrim, undoList, undoRec,
          List.reverse_singleton, hidx]
        rw [setIdx_setIdx, setIdx_self hidx]
  | replaceImage idx img =>
    simp only [valid] at h
    cases hidx : getIdx idx d.stock with
    | none => rw [hidx] at h; simp at h
    | some o =>
      cases o with
      | none => rw [hidx] at h; simp at h
      | some old =>
        simp only [recordPrim, applyPrim, undoList, undoRec,
          List.reverse_singleton, hidx]
        rw [setIdx_setIdx, setIdx_self hidx]
  | editImage idx img =>
    simp only [valid] at h
    cases hidx : getIdx idx d.stock with
    | none => rw [hidx] at h; simp at h
    | some o =>
      cases o with
      | none => rw [hidx] at h; simp at h
      | some old =>
        simp only [recordPrim, applyPrim, undoList, undoRec,
          List.reverse_singleton, hidx]
        rw [setIdx_setIdx, setIdx_self hidx]
  | addLayer fp sub =>
    simp only [valid] at h
    cases hcs : getFolderAt fp d.root with
    | none => rw [hcs] at h; simp at h
    | some cs =>
      simp only [recordPrim, applyPrim, undoList, undoRec,
        List.reverse_singleton, hcs]
      rw [updFolderAt_cancel _ _ fp d.root cs hcs (eraIdx_length_append cs sub)]
  | removeLayer fp li =>
    simp only [valid, getLayerAt] at h
    cases hcs : getFolderAt fp d.root with
    | none => rw [hcs] at h; simp at h
    | some cs =>
      rw [hcs] at h
      simp only [Option.bind_some, Option.isSome_iff_exists] at h
      obtain ⟨l, hl⟩ := h
      simp only [recordPrim, applyPrim, undoList, undoRec,
        List.reverse_singleton, getLayerAt, hcs, Option.bind_some, hl]
      rw [updFolderAt_cancel _ _ fp d.root cs hcs (insIdx_eraIdx hl)]
  | moveLayer fp i j =>
    simp only [valid] at h
    cases hcs : getFolderAt fp d.root with
    | none => rw [hcs] at h; simp at h
    | some cs =>
      rw [hcs] at h
      simp only [Bool.and_eq_true, decide_eq_true_eq] at h
      obtain ⟨hi, hj⟩ := h
      have hix : (getIdx i cs).isSome := (getIdx_isSome_iff i cs).mpr hi
      obtain ⟨x, hx⟩ := Option.isSome_iff_exists.mp hix
      have hj1 : j ≤ (eraIdx i cs).length := by
        rw [length_eraIdx hi]; omega
      simp only [recordPrim, applyPrim, undoList, undoRec, List.reverse_singleton]
      have hfg : (fun cs => match getIdx j cs with
            | some x => insIdx i x (eraIdx j cs)
            | none => cs)
          ((fun cs => match getIdx i cs with
            | some x => insIdx j x (eraIdx i cs)
            | none => cs) cs) = cs := by
        simp only [hx, getIdx_insIdx x hj1, eraIdx_insIdx x hj1]
        exact insIdx_eraIdx hx
      rw [updFolderAt_cancel _ _ fp d.root cs hcs hfg]
  | setLayerFlags fp li v =>
    simp only [valid] at h
    cases hl : getLayerAt fp li d.root with
    | none => rw [hl] at h; simp at h
    | some l =>
      simp only [recordPrim, applyPrim, undoList, undoRec,
        List.reverse_singleton, hl]
      cases l with
      | image lid fl cels =>
        have hfg : Layer.setFlags fl (Layer.setFlags v (Layer.image lid fl cels))
            = Layer.image lid fl cels := rfl
        rw [updLayerAt_cancel _ _ fp li d.root _ hl hfg]
      | folder lid fl cs =>
        have hfg : Layer.setFlags fl (Layer.setFlags v (Layer.folder lid fl cs))
            = Layer.folder lid fl cs := rfl
        rw [updLayerAt_cancel _ _ fp li d.root _ hl hfg]
  | addCel fp li cel =>
    simp only [valid, celsAt] at h
    cases hl : getLayerAt fp li d.root with
    | none => rw [hl] at h; simp at h
    | some l =>
      cases l with
      | folder lid fl cs => rw [hl] at h; simp at h
      | image lid fl cels =>
        simp only [recordPrim, applyPrim, undoList, undoRec,
          List.reverse_singleton, celsAt, hl]
        have hfg : mapCels (eraIdx cels.length)
            (mapCels (fun cels => cels ++ [cel]) (Layer.image lid fl cels))
            = Layer.image lid fl cels := by
          simp only [mapCels]
          rw [eraIdx_length_append]
        rw [updLayerAt_cancel _ _ fp li d.root _ hl hfg]
  | removeCelStep fp li ci =>
    simp only [valid, celsAt] at h
    cases hl : getLayerAt fp li d.root with
    | none => rw [hl] at h; simp at h
    | some l =>
      cases l with
      | folder lid fl cs => rw [hl] at h; simp at h
      | image lid fl cels =>
        rw [hl] at h
        simp only [decide_eq_true_eq] at h
        have hic : (getIdx ci cels).isSome := (getIdx_isSome_iff ci cels).mpr h
        obtain ⟨c, hc⟩ := Option.isSome_iff_exists.mp hic
        simp only [recordPrim, applyPrim, undoList, undoRec,
          List.reverse_singleton, celsAt, hl, hc]
        have hfg : mapCels (insIdx ci c)
            (mapCels (eraIdx ci) (Layer.image lid fl cels))
            = Layer.image lid fl cels := by
          simp only [mapCels]
          rw [insIdx_eraIdx hc]
        rw [updLayerAt_cancel _ _ fp li d.root _ hl hfg]
  | celFrame fp li ci n =>
    simp only [valid, celsAt] at h
    cases hl : getLayerAt fp li d.root with
    | none => rw [hl] at h; simp at h
    | some l =>
      cases l with
      | folder lid fl cs => rw [hl] at h; simp at h
      | image lid fl cels =>
        rw [hl] at h
        simp only [decide_eq_true_eq] at h
        have hic : (getIdx ci cels).isSome := (getIdx_isSome_iff ci cels).mpr h
        obtain ⟨c, hc⟩ := Option.isSome_iff_exists.mp hic
        simp only [recordPrim, applyPrim, undoList, undoRec,
          List.reverse_singleton, celsAt, hl, hc]
        have hfg : mapCels (modIdx ci (fun c2 => { c2 with frame := c.frame }))
            (mapCels (modIdx ci (fun c2 => { c2 with frame := n })) (Layer.image lid fl cels))
            = Layer.image lid fl cels := by
          simp only [mapCels]
          rw [modIdx_modIdx]
          exact congrArg (Layer.image lid fl) (modIdx_eq_self hc rfl)
        rw [updLayerAt_cancel _ _ fp li d.root _ hl hfg]
  | celPos fp li ci x y =>
    simp only [valid, celsAt] at h
    cases hl : getLayerAt fp li d.root with
    | none => rw [hl] at h; simp at h
    | some l =>
      cases l with
      | folder lid fl cs => rw [hl] at h; simp at h
      | image lid fl cels =>
        rw [hl] at h
        simp only [decide_eq_true_eq] at h
        have hic : (getIdx ci cels).isSome := (getIdx_isSome_iff ci cels).mpr h
        obtain ⟨c, hc⟩ := Option.isSome_iff_exists.mp hic
        simp only [recordPrim, applyPrim, undoList, undoRec,
          List.reverse_singleton, celsAt, hl, hc]
        have hfg : mapCels (modIdx ci (fun c2 => { c2 with x := c.x, y := c.y }))
            (mapCels (modIdx ci (fun c2 => { c2 with x := x, y := y })) (Layer.image lid fl cels))
            = Layer.image lid fl cels := by
          simp only [mapCels]
          rw [modIdx_modIdx]
          exact congrArg (Layer.image lid fl) (modIdx_eq_self hc rfl)
        rw [updLayerAt_cancel _ _ fp li d.root _ hl hfg]
  | setMask m => simp [recordPrim, applyPrim, undoList, undoRec]
  | maskPos x y => simp [recordPrim, applyPrim, undoList, undoRec]
  | setStockImgtype n => simp [recordPrim, applyPrim, undoList, undoRec]
  | setImgtype n => simp [recordPrim, applyPrim, undoList, undoRec]


/-- Undoing a whole group in strict LIFO order restores the document that
the transaction started from. -/
theorem group_inverts (ps : List Prim) (d : Doc) (h : seqValid ps d = true) :
    undoList (runRecs ps d).reverse (runDoc ps d) = d := by
  induction ps generalizing d with
  | nil => simp [runRecs, runDoc, undoList]
  | cons p ps ih =>
    simp only [seqValid, Bool.and_eq_true] at h
    simp only [runRecs, runDoc, List.reverse_append]
    rw [undoList_append]
    rw [ih _ h.2]
    exact prim_inverts p d h.1


theorem runTx_enabled (ps : List Prim) (tx : Tx) (htx : tx.enabled = true)
    (j : Journal) (d : Doc) (g0 : List URec) (hj : j.openGroup = some g0) :
    (runTx tx ps j d).1.openGroup = some (g0 ++ runRecs ps d) ∧
    (runTx tx ps j d).1.groups = j.groups ∧
    (runTx tx ps j d).2 = runDoc ps d := by
  induction ps generalizing j d g0 with
  | nil => simp [runTx, runRecs, runDoc, hj]
  | cons p ps ih =>
    simp only [runTx, stepTx, htx, if_pos, runRecs, runDoc]
    have hj1 : (appendOpen (recordPrim p d) j).openGroup
        = some (g0 ++ recordPrim p d) := by
      simp [appendOpen, hj]
    have hg1 : (appendOpen (recordPrim p d) j).groups = j.groups := by
      simp [appendOpen, hj]
    obtain ⟨h1, h2, h3⟩ := ih (appendOpen (recordPrim p d) j) (applyPrim p d) _ hj1
    refine ⟨?_, by rw [h2, hg1], h3⟩
    rw [h1]
    simp

/-- C1: for every composite operation (sequence of valid primitive
mutations ps) and every document state d, running the operation inside an
enabled transaction that is destroyed without commit (undo_close, doUndo,
clearRedo) leaves the document observably equal to d: same layer tree
shape and per-layer cel sets, same stock contents by index, same mask,
same frame count and durations, same current-frame and current-layer
selection. -/
theorem tx_rollback_restores (j : Journal) (d : Doc) (ps : List Prim)
    (hen : j.enabled = true) (hv : seqValid ps d = true) :
    ObsEq (txRollbackRun j d ps) d := by
  have hfull : txRollbackRun j d ps = d := by
    unfold txRollbackRun openTx
    simp only [hen, if_pos]
    obtain ⟨h1, h2, h3⟩ := runTx_enabled ps { committed := false, enabled := true }
      rfl (undoOpen j) d [] (by simp [undoOpen])
    simp only [destroyTx, if_pos]
    simp only [Bool.false_eq_true, if_neg]
    unfold undoClose
    rw [h1]
    simp only [doUndo, h2, h3, List.nil_append]
    simp only [undoOpen]
    exact group_inverts ps d hv
  rw [hfull]
  exact ⟨rfl, rfl, rfl, rfl, rfl, rfl, rfl⟩

/-- Witness for C1: a concrete enabled journal, document and composite
operation satisfying the hypotheses, with the round-trip conclusion
obtained from the theorem. -/
theorem tx_rollback_restores_witness :
    emptyJournal.enabled = true ∧ seqValid rollbackPrims sampleDoc = true ∧
    ObsEq (txRollbackRun emptyJournal sampleDoc rollbackPrims) sampleDoc :=
  ⟨rfl, by decide,
   tx_rollback_restores emptyJournal sampleDoc rollbackPrims rfl (by decide)⟩

/-- C4: once commit() has been called on a transaction, destroying it
does not alter the document in any way; the redo history is not cleared,
and when the journal is enabled the closed group merely remains on the
undo stack. -/
theorem commit_finality (en : Bool) (j : Journal) (d : Doc) (g : List URec)
    (hg : j.openGroup = some g) :
    (destroyTx (commitTx { committed := false, enabled := en }) j d).2 = d ∧
    (destroyTx (commitTx { committed := false, enabled := en }) j d).1.redo = j.redo ∧
    (en = true →
      (destroyTx (commitTx { committed := false, enabled := en }) j d).1.groups
        = g :: j.groups) := by
  cases en <;> simp [destroyTx, commitTx, undoClose, hg]

/-- Witness for C4: committing and then destroying on a concrete journal
with an open group leaves the concrete document untouched. -/
theorem commit_finality_witness :
    commitJournal.openGroup = some [.frame 5] ∧
    (destroyTx (commitTx { committed := false, enabled := true })
      commitJournal sampleDoc).2 = sampleDoc :=
  ⟨rfl, (commit_finality true commitJournal sampleDoc [.frame 5] rfl).1⟩

/-- Counterexample for C2: addImageInStock does NOT record the inverse
before mutating — the Stock insertion (the forward mutation) happens
first and the inverse record of the returned index is made afterwards, so
the claimed record-before-mutate ordering is false at this input. -/
theorem addImageInStock_mutates_before_logging :
    logsBeforeMutating (addImageInStockTrace sampleDoc) = false := by decide

/-- C2 (amended): removeImageFromStock and replaceStockImage record
their inverse before mutating the Stock (removal and the physical free
come after the record); addImageInStock instead inserts the image into
the Stock first and records the inverse of the returned index afterwards;
deselectMask stashes the mask snapshot in the repository unlogged, then
records the full mask-state inverse, and only afterwards clears the
active mask. -/
theorem stock_and_mask_logging_order (d : Doc) (idx : Nat) (b : Bool) :
    logsBeforeMutating (removeImageFromStockTrace d idx) = true ∧
    logsBeforeMutating (replaceStockImageTrace d idx) = true ∧
    addImageInStockTrace d
      = [.mutate .stockAdd, .record (.imageAdded d.stock.length)] ∧
    logsBeforeMutating (addImageInStockTrace d) = false ∧
    recBeforeMaskNone (deselectMaskTrace d b) = true ∧
    logsBeforeMutating (deselectMaskTrace d b) = false := by
  refine ⟨rfl, rfl, rfl, rfl, ?_, ?_⟩ <;>
    cases b <;>
      simp [deselectMaskTrace, recBeforeMaskNone, logsBeforeMutating,
        TraceEv.isMaskNoneMut, TraceEv.isRecord, List.any, List.all]

/-- Counterexample for C8: with the current selection (layer 2) inside
nested folder 1, newLayer appends the fresh layer (lid 3) to the sprite's
root folder; folder 1's child list still holds only layer 2 and does not
receive the new layer, so the claim that the new layer is inserted into
the currently selected folder is false at this input. -/
theorem newLayer_root_not_selected_folder :
    nestedSelDoc.currentLayer = some 2 ∧
    (newLayerOp 3 nestedSelDoc).1.root
      = [.folder 1 0 [.image 2 0 []], .image 3 0 []] ∧
    getFolderAt [0] (newLayerOp 3 nestedSelDoc).1.root = some [.image 2 0 []] :=
  ⟨rfl, rfl, rfl⟩

/-- C8 (amended): newLayer creates an empty image layer, appends it to
the child list of the sprite's ROOT folder, makes it the current
selection, and returns it; the rest of the document is untouched. -/
theorem newLayer_behaviour (lid : Nat) (d : Doc) :
    (newLayerOp lid d).1.root = d.root ++ [.image lid 0 []] ∧
    (newLayerOp lid d).1.currentLayer = some lid ∧
    (newLayerOp lid d).2 = .image lid 0 [] ∧
    (newLayerOp lid d).1.stock = d.stock ∧
    (newLayerOp lid d).1.totalFrames = d.totalFrames ∧
    (newLayerOp lid d).1.currentFrame = d.currentFrame ∧
    (newLayerOp lid d).1.mask = d.mask := by
  refine ⟨?_, rfl, rfl, rfl, rfl, rfl, rfl⟩
  simp [newLayerOp, applyPrim, updFolderAt]

theorem getFolderAt_updFolderAt (f : List Layer → List Layer) (p : List Nat)
    (ls : List Layer) :
    getFolderAt p (updFolderAt f p ls) = (getFolderAt p ls).map f := by
  induction p generalizing ls with
  | nil => simp [getFolderAt, updFolderAt]
  | cons i p ih =>
    simp only [getFolderAt, updFolderAt]
    rw [getIdx_modIdx]
    cases hl : getIdx i ls with
    | none => simp
    | some l =>
      cases l with
      | image lid fl cels => simp
      | folder lid fl cs => simp [ih]

theorem getLayerAt_updLayerAt (g : Layer → Layer) (p : List Nat) (i : Nat)
    (ls : List Layer) :
    getLayerAt p i (updLayerAt g p i ls) = (getLayerAt p i ls).map g := by
  simp only [getLayerAt, updLayerAt, getFolderAt_updFolderAt]
  cases hcs : getFolderAt p ls with
  | none => simp
  | some cs => simp [getIdx_modIdx]

theorem celsAt_updLayerAt (f : List Cel → List Cel) (fp : List Nat) (li : Nat)
    (ls : List Layer) :
    celsAt fp li (updLayerAt (mapCels f) fp li ls) = (celsAt fp li ls).map f := by
  simp only [celsAt, getLayerAt_updLayerAt]
  cases hl : getLayerAt fp li ls with
  | none => simp
  | some l => cases l <;> simp [mapCels]

/-- Counterexample for C3: in sharedSlotDoc the cels of layers 1 and 2
(different layers) both reference stock slot 0, which holds image 42.
Removing layer 1's cel frees slot 0 anyway — the same-layer scan does not
see layer 2's cel — leaving that cel's imageIndex dangling, so the claim
that a slot is freed only when no cel in any layer references it is false
at this input. -/
theorem removeCel_frees_shared_slot :
    getIdx 0 sharedSlotDoc.stock = some (some 42) ∧
    celsAt [] 1 sharedSlotDoc.root
      = some [{ frame := 0, x := 1, y := 1, opacity := 255, image := 0 }] ∧
    (removeCelOp [] 0 0 sharedSlotDoc).stock = [none] ∧
    celsAt [] 1 (removeCelOp [] 0 0 sharedSlotDoc).root
      = some [{ frame := 0, x := 1, y := 1, opacity := 255, image := 0 }] := by
  refine ⟨rfl, rfl, by decide, by decide⟩

/-- C3 (amended): removeCel removes the cel and frees its stock slot
exactly when the scan over THIS layer's frames 0..totalFrames-1 finds no
other cel of the same layer referencing the slot; cels of other layers
are not consulted. -/
theorem removeCel_same_layer_liveness (d : Doc) (fp : List Nat) (li ci : Nat)
    (cels : List Cel) (cel : Cel)
    (h1 : celsAt fp li d.root = some cels) (h2 : getIdx ci cels = some cel) :
    (removeCelOp fp li ci d).stock =
      (if usedScan cels ci cel.image d.totalFrames.toNat then d.stock
       else setIdx cel.image none d.stock) ∧
    celsAt fp li (removeCelOp fp li ci d).root = some (eraIdx ci cels) := by
  simp only [removeCelOp, h1, removeCelCore, h2]
  constructor
  · trivial
  · rw [celsAt_updLayerAt]
    simp [h1]

/-- Witness for C3's amended theorem at a concrete input: the slot is
freed because no other cel of layer 1 shares it. -/
theorem removeCel_same_layer_liveness_witness :
    celsAt [] 0 sharedSlotDoc.root
      = some [{ frame := 0, x := 0, y := 0, opacity := 255, image := 0 }] ∧
    ((removeCelOp [] 0 0 sharedSlotDoc).stock =
      (if usedScan [{ frame := 0, x := 0, y := 0, opacity := 255, image := 0 }] 0
          ({ frame := 0, x := 0, y := 0, opacity := 255, image := 0 } : Cel).image
          sharedSlotDoc.totalFrames.toNat then sharedSlotDoc.stock
       else setIdx ({ frame := 0, x := 0, y := 0, opacity := 255, image := 0 } : Cel).image
          none sharedSlotDoc.stock) ∧
     celsAt [] 0 (removeCelOp [] 0 0 sharedSlotDoc).root
       = some (eraIdx 0 [{ frame := 0, x := 0, y := 0, opacity := 255, image := 0 }])) :=
  ⟨rfl, removeCel_same_layer_liveness sharedSlotDoc [] 0 0 _ _ rfl rfl⟩

/-- C9: setImgType is a no-op (no mutation, no journal records) when the
sprite is already in the target mode; otherwise it converts and replaces
every stock image, sets the stock's and the sprite's mode fields, and
exactly when the target is grayscale it replaces all palettes by the one
generated grayscale palette, while any other target leaves the palette
list unchanged. -/
theorem setImgType_behaviour (convert : Img → Img) (t : Int) (d : Doc) :
    (d.imgtype = t → setImgTypeOp convert t d = (d, [])) ∧
    (d.imgtype ≠ t →
      (setImgTypeOp convert t d).1.stock = d.stock.map (fun s => s.map convert) ∧
      (setImgTypeOp convert t d).1.imgtype = t ∧
      (setImgTypeOp convert t d).1.stockImgtype = t ∧
      (setImgTypeOp convert t d).1.palettes =
        (if t = IMAGE_GRAYSCALE then [grayPalette] else d.palettes) ∧
      (setImgTypeOp convert t d).1.root = d.root ∧
      (setImgTypeOp convert t d).1.mask = d.mask ∧
      (setImgTypeOp convert t d).1.currentFrame = d.currentFrame) := by
  constructor
  · intro h
    simp [setImgTypeOp, h]
  · intro h
    by_cases hg : t = IMAGE_GRAYSCALE
    · subst hg
      simp [setImgTypeOp, h, applyPrim]
    · simp [setImgTypeOp, h, hg, applyPrim]

/-- Witness for C9: converting an RGB document to grayscale maps the
stock slotwise and installs the single grayscale palette; the no-op
branch holds when the target equals the current mode. -/
theorem setImgType_behaviour_witness :
    (indexedDoc.imgtype = IMAGE_RGB → setImgTypeOp Nat.succ IMAGE_RGB indexedDoc = (indexedDoc, [])) ∧
    indexedDoc.imgtype ≠ IMAGE_GRAYSCALE ∧
    (setImgTypeOp Nat.succ IMAGE_GRAYSCALE indexedDoc).1.stock
      = indexedDoc.stock.map (fun s => s.map Nat.succ) ∧
    (setImgTypeOp Nat.succ IMAGE_GRAYSCALE indexedDoc).1.palettes = [grayPalette] := by
  have h2 := (setImgType_behaviour Nat.succ IMAGE_GRAYSCALE indexedDoc).2 (by decide)
  refine ⟨(setImgType_behaviour Nat.succ IMAGE_RGB indexedDoc).1, by decide, h2.1, ?_⟩
  rw [h2.2.2.2.1]
  decide

theorem autocropScan_state (render : Doc → Img) (shrink : Img → Option ShrinkRect)
    (n : Nat) :
    ∀ (fr : Int) (d : Doc) (b : Bounds) (v : Int),
      { (autocropScan render shrink n fr d b).1 with currentFrame := v }
        = { d with currentFrame := v } := by
  induction n with
  | zero => intro fr d b v; rfl
  | succ m ih =>
    intro fr d b v
    simp only [autocropScan]
    rw [ih]

theorem cropSpriteOp_frames (cropImg : Img → Int → Int → Int → Int → Int → Img)
    (x y w h bg : Int) (d : Doc) :
    (cropSpriteOp cropImg x y w h bg d).currentFrame = d.currentFrame ∧
    (cropSpriteOp cropImg x y w h bg d).totalFrames = d.totalFrames := by
  simp only [cropSpriteOp, applyPrim]
  constructor <;> (split <;> rfl)

/-- C10: autocropSprite's per-frame scan saves and restores the sprite's
current frame, so the current frame observed afterwards always equals the
one before; when the union bounding box is empty the whole document is
returned unmodified. -/
theorem autocrop_scan_preserves_frame (render : Doc → Img)
    (shrink : Img → Option ShrinkRect)
    (cropImg : Img → Int → Int → Int → Int → Int → Img) (bg : Int) (d : Doc) :
    (autocropOp render shrink cropImg bg d).currentFrame = d.currentFrame ∧
    (boundsEmpty (autocropScan render shrink d.totalFrames.toNat 0 d initBounds).2 = true →
      autocropOp render shrink cropImg bg d = d) := by
  have hd1 : { (autocropScan render shrink d.totalFrames.toNat 0 d initBounds).1 with
      currentFrame := d.currentFrame } = d := by
    rw [autocropScan_state]
  simp only [autocropOp, hd1]
  constructor
  · split
    · rfl
    · exact (cropSpriteOp_frames cropImg _ _ _ _ bg d).1
  · intro hb
    simp only [boundsEmpty, Bool.or_eq_true, decide_eq_true_eq] at hb
    rw [if_pos]
    omega

/-- Witness for C10: with a shrink capability that reports no content on
any frame, the bounding box stays empty and autocrop leaves the concrete
document untouched. -/
theorem autocrop_scan_preserves_frame_witness :
    boundsEmpty (autocropScan (fun _ => 0) (fun _ => none)
      sampleDoc.totalFrames.toNat 0 sampleDoc initBounds).2 = true ∧
    autocropOp (fun _ => 0) (fun _ => none) (fun a _ _ _ _ _ => a) 0 sampleDoc
      = sampleDoc :=
  ⟨by decide,
   (autocrop_scan_preserves_frame (fun _ => 0) (fun _ => none)
     (fun a _ _ _ _ _ => a) 0 sampleDoc).2 (by decide)⟩

theorem getIdx_eq_getElem? {α : Type} (n : Nat) (l : List α) : getIdx n l = l[n]? := by
  induction l generalizing n with
  | nil => cases n <;> simp [getIdx]
  | cons x xs ih => cases n <;> simp [getIdx, ih]

/-- C5: removeLayer detaches and destroys the addressed layer, and when
that layer was the current selection the selection moves to the previous
sibling, else the next sibling, else the parent folder provided the
parent is not the tree root (otherwise no layer stays selected);
otherwise the selection is untouched, and the rest of the document is
unchanged. -/
theorem removeLayer_selection (d : Doc) (fp : List Nat) (li : Nat)
    (cs : List Layer) (layer : Layer)
    (hcs : getFolderAt fp d.root = some cs) (hl : getIdx li cs = some layer) :
    getFolderAt fp (removeLayerOp fp li d).root = some (eraIdx li cs) ∧
    (removeLayerOp fp li d).currentLayer =
      (if d.currentLayer = some layer.lid then
        (match (if li = 0 then none else cs[li-1]?) with
         | some l2 => some l2.lid
         | none =>
           match cs[li+1]? with
           | some l2 => some l2.lid
           | none =>
             match fp with
             | [] => none
             | _ :: _ => (getNodeAt fp d.root).map Layer.lid)
       else d.currentLayer) ∧
    (removeLayerOp fp li d).stock = d.stock ∧
    (removeLayerOp fp li d).mask = d.mask ∧
    (removeLayerOp fp li d).totalFrames = d.totalFrames ∧
    (removeLayerOp fp li d).currentFrame = d.currentFrame := by
  simp only [removeLayerOp, hcs, hl, ← getIdx_eq_getElem?]
  by_cases hcur : d.currentLayer = some layer.lid
  · simp only [if_pos hcur]
    refine ⟨?_, ?_, rfl, rfl, rfl, rfl⟩
    · simp [applyPrim, getFolderAt_updFolderAt, hcs]
    · cases hprev : (if li = 0 then none else getIdx (li - 1) cs) with
      | some l2 => simp [applyPrim, hprev]
      | none =>
        cases hnext : getIdx (li + 1) cs with
        | some l3 => simp [applyPrim, hprev, hnext]
        | none =>
          cases fp with
          | nil => simp [applyPrim, hprev, hnext]
          | cons a p => simp [applyPrim, hprev, hnext]
  · simp only [if_neg hcur]
    refine ⟨?_, rfl, rfl, rfl, rfl, rfl⟩
    simp [applyPrim, getFolderAt_updFolderAt, hcs]

/-- Witness for C5: removing the selected middle sibling (layer 12) of
folder 10 moves the selection to the previous sibling (layer 11) and
detaches the layer. -/
theorem removeLayer_selection_witness :
    getFolderAt [0] siblingsDoc.root
      = some [.image 11 0 [], .image 12 0 [], .image 13 0 []] ∧
    (removeLayerOp [0] 1 siblingsDoc).currentLayer = some 11 ∧
    getFolderAt [0] (removeLayerOp [0] 1 siblingsDoc).root
      = some [.image 11 0 [], .image 13 0 []] := by
  have h := removeLayer_selection siblingsDoc [0] 1
    [.image 11 0 [], .image 12 0 [], .image 13 0 []] (.image 12 0 []) rfl rfl
  exact ⟨rfl, h.2.1, h.1⟩

theorem durShiftFwd_eq (n : Nat) : ∀ (c0 : Int) (fr : Int → Int) (k : Int),
    durShiftFwd n c0 fr k = if c0 ≤ k ∧ k < c0 + n then fr (k+1) else fr k := by
  induction n with
  | zero =>
    intro c0 fr k
    simp only [durShiftFwd]
    rw [if_neg]
    push_cast
    omega
  | succ m ih =>
    intro c0 fr k
    simp only [durShiftFwd]
    rw [ih]
    by_cases h1 : c0 + 1 ≤ k ∧ k < c0 + 1 + m
    · rw [if_pos h1]
      rw [if_neg (by omega)]
      rw [if_pos (by push_cast; omega)]
    · rw [if_neg h1]
      by_cases h2 : k = c0
      · subst h2
        rw [if_pos rfl]
        rw [if_pos (by push_cast; omega)]
      · rw [if_neg h2]
        rw [if_neg (by push_cast; push_cast [Int.lt_iff_add_one_le] at h1; omega)]

theorem durShiftBwd_eq (n : Nat) : ∀ (c0 : Int) (fr : Int → Int) (k : Int),
    durShiftBwd n c0 fr k = if c0 - n < k ∧ k ≤ c0 then fr (k-1) else fr k := by
  induction n with
  | zero =>
    intro c0 fr k
    simp only [durShiftBwd]
    rw [if_neg]
    push_cast
    omega
  | succ m ih =>
    intro c0 fr k
    simp only [durShiftBwd]
    rw [ih]
    by_cases h1 : c0 - 1 - m < k ∧ k ≤ c0 - 1
    · rw [if_pos h1]
      rw [if_neg (by omega)]
      rw [if_pos (by push_cast; omega)]
    · rw [if_neg h1]
      by_cases h2 : k = c0
      · subst h2
        rw [if_pos rfl]
        rw [if_pos (by push_cast; omega)]
      · rw [if_neg h2]
        rw [if_neg (by push_cast; push_cast [Int.lt_iff_add_one_le] at h1; omega)]

/-- C7: moveFrameBefore is a no-op when the indices are equal or either
lies outside [0, totalFrames); otherwise every cel's frame index is
remapped by the rotation celNewFrame (the moved frame jumps to the target
slot, frames strictly between shift by one toward the vacated slot),
recursively through the layer tree, and the per-frame durations permute
by exactly the same rotation: the duration of old slot s is found at slot
celNewFrame frame before s afterwards, slots outside [0, totalFrames)
being untouched. -/
theorem moveFrameBefore_behaviour (frame before : Int) (d : Doc) :
    ((¬(frame ≠ before ∧ 0 ≤ frame ∧ frame < d.totalFrames ∧
        0 ≤ before ∧ before < d.totalFrames)) →
      moveFrameBeforeOp frame before d = d) ∧
    (frame ≠ before → 0 ≤ frame → frame < d.totalFrames →
      0 ≤ before → before < d.totalFrames →
      (moveFrameBeforeOp frame before d).root = moveFrameLayers frame before d.root ∧
      (∀ s, 0 ≤ s → s < d.totalFrames →
        (moveFrameBeforeOp frame before d).frlens (celNewFrame frame before s)
          = d.frlens s) ∧
      (∀ k, k < 0 ∨ d.totalFrames ≤ k →
        (moveFrameBeforeOp frame before d).frlens k = d.frlens k) ∧
      (moveFrameBeforeOp frame before d).totalFrames = d.totalFrames ∧
      (moveFrameBeforeOp frame before d).currentFrame = d.currentFrame ∧
      (moveFrameBeforeOp frame before d).stock = d.stock) := by
  constructor
  · intro h
    simp only [moveFrameBeforeOp, if_neg h]
  · intro h1 h2 h3 h4 h5
    have hcond : frame ≠ before ∧ 0 ≤ frame ∧ frame < d.totalFrames ∧
        0 ≤ before ∧ before < d.totalFrames := ⟨h1, h2, h3, h4, h5⟩
    rcases lt_or_gt_of_ne h1 with hlt | hgt
    · have hop : moveFrameBeforeOp frame before d =
          { d with
            frlens := fun k => if k = before - 1 then d.frlens frame
              else durShiftFwd (before - 1 - frame).toNat frame d.frlens k,
            root := moveFrameLayers frame before d.root } := by
        simp only [moveFrameBeforeOp, if_pos hcond, if_pos hlt]
      have hcast : ((before - 1 - frame).toNat : Int) = before - 1 - frame :=
        Int.toNat_of_nonneg (by omega)
      refine ⟨by rw [hop], ?_, ?_, by rw [hop], by rw [hop], by rw [hop]⟩
      · intro s hs1 hs2
        simp only [hop]
        by_cases hsf : s = frame
        · have hrot : celNewFrame frame before s = before - 1 := by
            unfold celNewFrame
            rw [if_pos hlt, if_pos hsf]
          rw [hrot, if_pos rfl, hsf]
        · by_cases hs3 : frame < s ∧ s < before
          · have hrot : celNewFrame frame before s = s - 1 := by
              unfold celNewFrame
              rw [if_pos hlt, if_neg hsf, if_pos hs3]
            rw [hrot, if_neg (by omega), durShiftFwd_eq, hcast,
              if_pos (by omega), show s - 1 + 1 = s by omega]
          · have hrot : celNewFrame frame before s = s := by
              unfold celNewFrame
              rw [if_pos hlt, if_neg hsf, if_neg hs3]
            rw [hrot, if_neg (by omega), durShiftFwd_eq, hcast,
              if_neg (by omega)]
      · intro k hk
        simp only [hop]
        rw [if_neg (by omega), durShiftFwd_eq, hcast, if_neg (by omega)]
    · have hop : moveFrameBeforeOp frame before d =
          { d with
            frlens := fun k => if k = before then d.frlens frame
              else durShiftBwd (frame - before).toNat frame d.frlens k,
            root := moveFrameLayers frame before d.root } := by
        simp only [moveFrameBeforeOp, if_pos hcond,
          if_neg (by omega : ¬frame < before)]
      have hcast : ((frame - before).toNat : Int) = frame - before :=
        Int.toNat_of_nonneg (by omega)
      refine ⟨by rw [hop], ?_, ?_, by rw [hop], by rw [hop], by rw [hop]⟩
      · intro s hs1 hs2
        simp only [hop]
        by_cases hsf : s = frame
        · have hrot : celNewFrame frame before s = before := by
            unfold celNewFrame
            rw [if_neg (by omega : ¬frame < before),
              if_pos (by omega : before < frame), if_pos hsf]
          rw [hrot, if_pos rfl, hsf]
        · by_cases hs3 : before ≤ s ∧ s < frame
          · have hrot : celNewFrame frame before s = s + 1 := by
              unfold celNewFrame
              rw [if_neg (by omega : ¬frame < before),
                if_pos (by omega : before < frame), if_neg hsf, if_pos hs3]
            rw [hrot, if_neg (by omega), durShiftBwd_eq, hcast,
              if_pos (by omega), show s + 1 - 1 = s by omega]
          · have hrot : celNewFrame frame before s = s := by
              unfold celNewFrame
              rw [if_neg (by omega : ¬frame < before),
                if_pos (by omega : before < frame), if_neg hsf, if_neg hs3]
            rw [hrot, if_neg (by omega), durShiftBwd_eq, hcast,
              if_neg (by omega)]
      · intro k hk
        simp only [hop]
        rw [if_neg (by omega), durShiftBwd_eq, hcast, if_neg (by omega)]

/-- Witness for C7, the spec scenario: moveFrameBefore(0, 3) on the
4-frame document sends the content of frame 0 to slot 2 and shifts
frames 1 and 2 down by one; the duration of old slot 0 is found at slot
celNewFrame 0 3 0 = 2, and the cels of layer 1 are remapped by the same
rotation. -/
theorem moveFrameBefore_behaviour_witness :
    (0 : Int) ≠ 3 ∧ scenarioMoveDoc.totalFrames = 4 ∧
    (moveFrameBeforeOp 0 3 scenarioMoveDoc).frlens (celNewFrame 0 3 0)
      = scenarioMoveDoc.frlens 0 ∧
    (moveFrameBeforeOp 0 3 scenarioMoveDoc).frlens (celNewFrame 0 3 1)
      = scenarioMoveDoc.frlens 1 ∧
    (moveFrameBeforeOp 0 3 scenarioMoveDoc).root
      = moveFrameLayers 0 3 scenarioMoveDoc.root ∧
    celsAt [] 0 (moveFrameBeforeOp 0 3 scenarioMoveDoc).root
      = some [{ frame := 2, x := 0, y := 0, opacity := 255, image := 0 },
              { frame := 0, x := 0, y := 0, opacity := 255, image := 1 },
              { frame := 1, x := 0, y := 0, opacity := 255, image := 2 },
              { frame := 3, x := 0, y := 0, opacity := 255, image := 3 }] := by
  have h := (moveFrameBefore_behaviour 0 3 scenarioMoveDoc).2
    (by decide) (by decide) (by decide) (by decide) (by decide)
  exact ⟨by decide, rfl, h.2.1 0 (by decide) (by decide),
    h.2.1 1 (by decide) (by decide), h.1, by decide⟩

theorem getIdx_ext {α : Type} {l1 l2 : List α}
    (h : ∀ n, getIdx n l1 = getIdx n l2) : l1 = l2 := by
  induction l1 generalizing l2 with
  | nil =>
    cases l2 with
    | nil => rfl
    | cons y ys => exact absurd (h 0).symm (by simp [getIdx])
  | cons x xs ih =>
    cases l2 with
    | nil => exact absurd (h 0) (by simp [getIdx])
    | cons y ys =>
      have h0 := h 0
      simp [getIdx] at h0
      rw [h0, ih (fun n => h (n+1))]

theorem getIdx_modIdx_ne {α : Type} {m k : Nat} (f : α → α) (l : List α)
    (h : m ≠ k) : getIdx m (modIdx k f l) = getIdx m l := by
  induction l generalizing m k with
  | nil => simp [modIdx]
  | cons x xs ih =>
    cases k with
    | zero =>
      cases m with
      | zero => exact absurd rfl h
      | succ m2 => simp [modIdx, getIdx]
    | succ k2 =>
      cases m with
      | zero => simp [modIdx, getIdx]
      | succ m2 =>
        simp only [modIdx, getIdx]
        exact ih (fun hh => h (by omega))

theorem getIdx_map {α β : Type} (g : α → β) (m : Nat) (l : List α) :
    getIdx m (l.map g) = (getIdx m l).map g := by
  induction l generalizing m with
  | nil => cases m <;> simp [getIdx]
  | cons x xs ih => cases m <;> simp [getIdx, ih]

theorem getIdx_mem {α : Type} {n : Nat} {l : List α} {x : α}
    (h : getIdx n l = some x) : x ∈ l := by
  induction l generalizing n with
  | nil => simp [getIdx] at h
  | cons y ys ih =>
    cases n with
    | zero => simp [getIdx] at h; simp [h]
    | succ m => simp [getIdx] at h; exact List.mem_cons_of_mem y (ih h)

theorem getIdx_eraIdx {α : Type} (i j : Nat) (l : List α) :
    getIdx j (eraIdx i l) = if j < i then getIdx j l else getIdx (j+1) l := by
  induction l generalizing i j with
  | nil => cases i <;> cases j <;> simp [eraIdx, getIdx]
  | cons x xs ih =>
    cases i with
    | zero => simp [eraIdx, getIdx]
    | succ i2 =>
      cases j with
      | zero => simp [eraIdx, getIdx]
      | succ j2 =>
        simp only [eraIdx, getIdx, ih i2 j2]
        by_cases hj : j2 < i2
        · rw [if_pos hj, if_pos (by omega)]
        · rw [if_neg hj, if_neg (by omega)]

theorem celAtFrame_some {f : Int} {cels : List Cel} {k : Nat}
    (h : celAtFrame f cels = some k) :
    ∃ c, getIdx k cels = some c ∧ c.frame = f := by
  induction cels generalizing k with
  | nil => simp [celAtFrame] at h
  | cons c cs ih =>
    by_cases hc : c.frame = f
    · simp [celAtFrame, hc] at h
      subst h
      exact ⟨c, by simp [getIdx], hc⟩
    · simp only [celAtFrame, if_neg hc] at h
      cases hcf : celAtFrame f cs with
      | none => rw [hcf] at h; simp at h
      | some k2 =>
        rw [hcf] at h
        simp at h
        subst h
        obtain ⟨c2, hg, hf⟩ := ih hcf
        exact ⟨c2, by simp [getIdx, hg], hf⟩

theorem celAtFrame_none {f : Int} {cels : List Cel}
    (h : celAtFrame f cels = none) :
    ∀ k c, getIdx k cels = some c → c.frame ≠ f := by
  induction cels with
  | nil => intro k c hg; simp [getIdx] at hg
  | cons c0 cs ih =>
    intro k c hg
    by_cases hc : c0.frame = f
    · simp [celAtFrame, hc] at h
    · simp only [celAtFrame, if_neg hc] at h
      cases k with
      | zero =>
        simp [getIdx] at hg
        rw [hg] at hc
        exact hc
      | succ m =>
        simp only [getIdx] at hg
        cases hcf : celAtFrame f cs with
        | some k2 => rw [hcf] at h; simp at h
        | none => exact ih hcf m c hg

theorem fd_of_nodup {cels : List Cel}
    (h : (cels.map (fun c => c.frame)).Nodup) :
    ∀ i j ci cj, getIdx i cels = some ci → getIdx j cels = some cj →
      ci.frame = cj.frame → i = j := by
  induction cels with
  | nil => intro i j ci cj hgi; simp [getIdx] at hgi
  | cons c cs ih =>
    simp only [List.map_cons, List.nodup_cons] at h
    intro i j ci cj hgi hgj heq
    cases i with
    | zero =>
      cases j with
      | zero => rfl
      | succ j2 =>
        simp [getIdx] at hgi hgj
        exfalso
        apply h.1
        rw [← hgi] at heq
        rw [heq]
        exact List.mem_map_of_mem _ (getIdx_mem hgj)
    | succ i2 =>
      cases j with
      | zero =>
        simp [getIdx] at hgi hgj
        exfalso
        apply h.1
        rw [← hgj] at heq
        rw [← heq]
        exact List.mem_map_of_mem _ (getIdx_mem hgi)
      | succ j2 =>
        simp only [getIdx] at hgi hgj
        rw [ih h.2 i2 j2 ci cj hgi hgj heq]

/-- Characterization of the sequential displacement loop: when frames are
pairwise distinct, none is fr - 1 (the slot cels are shifted into), and
all lie below fr + n, the loop moves every cel with frame at least fr one
frame earlier. -/
theorem shiftLoop_eq (n : Nat) : ∀ (fr : Int) (cels : List Cel),
    (∀ i j ci cj, getIdx i cels = some ci → getIdx j cels = some cj →
      ci.frame = cj.frame → i = j) →
    (∀ i c, getIdx i cels = some c → c.frame ≠ fr - 1) →
    (∀ i c, getIdx i cels = some c → c.frame < fr + n) →
    shiftLoop n fr cels =
      cels.map (fun c => if fr ≤ c.frame then { c with frame := c.frame - 1 } else c) := by
  induction n with
  | zero =>
    intro fr cels hfd hprev hub
    simp only [shiftLoop]
    refine getIdx_ext (fun m => ?_)
    rw [getIdx_map]
    cases hm : getIdx m cels with
    | none => rfl
    | some c =>
      have := hub m c hm
      simp only [Option.map_some']
      rw [if_neg (by push_cast at this; omega)]
  | succ n ih =>
    intro fr cels hfd hprev hub
    simp only [shiftLoop]
    cases hcf : celAtFrame fr cels with
    | none =>
      rw [ih (fr + 1) cels hfd
        (fun i c hg => by have := celAtFrame_none hcf i c hg; omega)
        (fun i c hg => by have := hub i c hg; push_cast at this ⊢; omega)]
      refine getIdx_ext (fun m => ?_)
      rw [getIdx_map, getIdx_map]
      cases hm : getIdx m cels with
      | none => rfl
      | some c =>
        have hne := celAtFrame_none hcf m c hm
        simp only [Option.map_some']
        by_cases hge : fr + 1 ≤ c.frame
        · rw [if_pos hge, if_pos (by omega)]
        · rw [if_neg hge, if_neg (by omega)]
    | some k =>
      obtain ⟨c0, hk, hkf⟩ := celAtFrame_some hcf
      have honlyk : ∀ i c, getIdx i cels = some c → c.frame = fr → i = k :=
        fun i c hg hf => hfd i k c c0 hg hk (by rw [hf, hkf])
      have hdecf : ({ c0 with frame := c0.frame - 1 } : Cel).frame = c0.frame - 1 := rfl
      rw [ih (fr + 1) (modIdx k (fun c => { c with frame := c.frame - 1 }) cels)
        ?_ ?_ ?_]
      · refine getIdx_ext (fun m => ?_)
        rw [getIdx_map, getIdx_map]
        by_cases hm : m = k
        · subst hm
          rw [getIdx_modIdx, hk]
          simp only [Option.map_some']
          rw [if_neg (by omega), if_pos (by omega)]
        · rw [getIdx_modIdx_ne _ _ hm]
          cases hg : getIdx m cels with
          | none => rfl
          | some c =>
            have hne : c.frame ≠ fr := fun hf => hm (honlyk m c hg hf)
            simp only [Option.map_some']
            by_cases hge : fr + 1 ≤ c.frame
            · rw [if_pos hge, if_pos (by omega)]
            · rw [if_neg hge, if_neg (by omega)]
      · intro i j ci cj hgi hgj heq
        by_cases hi : i = k <;> by_cases hj : j = k
        · rw [hi, hj]
        · subst hi
          rw [getIdx_modIdx, hk] at hgi
          simp only [Option.map_some', Option.some.injEq] at hgi
          rw [getIdx_modIdx_ne _ _ hj] at hgj
          have hfe : ci.frame = c0.frame - 1 := by rw [← hgi]
          exact absurd (by omega : cj.frame = fr - 1) (hprev j cj hgj)
        · subst hj
          rw [getIdx_modIdx, hk] at hgj
          simp only [Option.map_some', Option.some.injEq] at hgj
          rw [getIdx_modIdx_ne _ _ hi] at hgi
          have hfe : cj.frame = c0.frame - 1 := by rw [← hgj]
          exact absurd (by omega : ci.frame = fr - 1) (hprev i ci hgi)
        · rw [getIdx_modIdx_ne _ _ hi] at hgi
          rw [getIdx_modIdx_ne _ _ hj] at hgj
          exact hfd i j ci cj hgi hgj heq
      · intro i c hg
        by_cases hi : i = k
        · subst hi
          rw [getIdx_modIdx, hk] at hg
          simp only [Option.map_some', Option.some.injEq] at hg
          have hfe : c.frame = c0.frame - 1 := by rw [← hg]
          omega
        · rw [getIdx_modIdx_ne _ _ hi] at hg
          intro hf
          exact hi (honlyk i c hg (by omega))
      · intro i c hg
        by_cases hi : i = k
        · subst hi
          rw [getIdx_modIdx, hk] at hg
          simp only [Option.map_some', Option.some.injEq] at hg
          have hfe : c.frame = c0.frame - 1 := by rw [← hg]
          omega
        · rw [getIdx_modIdx_ne _ _ hi] at hg
          have := hub i c hg
          push_cast at this ⊢
          omega

theorem filter_ne_frame_eq_self {f : Int} {cels : List Cel}
    (h : ∀ i c, getIdx i cels = some c → c.frame ≠ f) :
    cels.filter (fun c => !(c.frame == f)) = cels := by
  induction cels with
  | nil => rfl
  | cons c cs ih =>
    have h0 : c.frame ≠ f := h 0 c (by simp [getIdx])
    rw [List.filter_cons_of_pos (by simp [h0])]
    rw [ih (fun i cc hg => h (i+1) cc (by simp [getIdx, hg]))]

theorem eraIdx_eq_filter {f : Int} {cels : List Cel} {ci : Nat} {c0 : Cel}
    (hk : getIdx ci cels = some c0) (hf : c0.frame = f)
    (huniq : ∀ j cj, getIdx j cels = some cj → cj.frame = f → j = ci) :
    eraIdx ci cels = cels.filter (fun c => !(c.frame == f)) := by
  induction cels generalizing ci with
  | nil => simp [getIdx] at hk
  | cons c cs ih =>
    cases ci with
    | zero =>
      simp only [getIdx, Option.some.injEq] at hk
      subst hk
      rw [List.filter_cons_of_neg (by simp [hf])]
      simp only [eraIdx]
      rw [filter_ne_frame_eq_self (fun i cc hg hfe => by
        have := huniq (i+1) cc (by simp [getIdx, hg]) hfe
        omega)]
    | succ m =>
      simp only [getIdx] at hk
      have hc : c.frame ≠ f := fun hfe => by
        have := huniq 0 c (by simp [getIdx]) hfe
        omega
      rw [List.filter_cons_of_pos (by simp [hc])]
      simp only [eraIdx]
      rw [ih hk (fun j cj hg hfe => by
        have := huniq (j+1) cj (by simp [getIdx, hg]) hfe
        omega)]

theorem framesOkCels_split {total : Int} {cels : List Cel}
    (h : framesOkCels total cels = true) :
    (∀ i j ci cj, getIdx i cels = some ci → getIdx j cels = some cj →
      ci.frame = cj.frame → i = j) ∧
    (∀ i c, getIdx i cels = some c → 0 ≤ c.frame ∧ c.frame < total) := by
  simp only [framesOkCels, Bool.and_eq_true, decide_eq_true_eq,
    List.all_eq_true] at h
  refine ⟨fd_of_nodup h.1, fun i c hg => ?_⟩
  have := h.2 c (getIdx_mem hg)
  simpa using this

theorem map_shift_lt_eq (f : Int) (cels : List Cel) :
    cels.map (fun c => if f + 1 ≤ c.frame then { c with frame := c.frame - 1 } else c)
      = cels.map (fun c => if f < c.frame then { c with frame := c.frame - 1 } else c) := by
  refine getIdx_ext (fun m => ?_)
  rw [getIdx_map, getIdx_map]
  cases hm : getIdx m cels with
  | none => rfl
  | some c =>
    simp only [Option.map_some']
    by_cases hge : f + 1 ≤ c.frame
    · rw [if_pos hge, if_pos (by omega)]
    · rw [if_neg hge, if_neg (by omega)]

/-- What removeFrameOfLayer does to one image layer's cel list under the
one-cel-per-frame invariant: drop the cel at frame f (when present) and
move every cel at a later frame one frame earlier. -/
theorem removeFrame_cels_core (total f : Int) (cels : List Cel)
    (s : List (Option Img)) (lid fl : Nat)
    (h : framesOkCels total cels = true) :
    (removeFrameOfLayer total f (.image lid fl cels) s).1
      = remFrameExpected f (.image lid fl cels) := by
  obtain ⟨hfd, hrange⟩ := framesOkCels_split h
  simp only [removeFrameOfLayer, remFrameExpected]
  cases hcf : celAtFrame f cels with
  | none =>
    simp only
    rw [filter_ne_frame_eq_self (celAtFrame_none hcf)]
    rw [shiftLoop_eq _ (f+1) cels hfd
      (fun i c hg => by have := celAtFrame_none hcf i c hg; omega)
      (fun i c hg => by have := (hrange i c hg).2; omega)]
    rw [map_shift_lt_eq]
  | some ci =>
    obtain ⟨c0, hk, hkf⟩ := celAtFrame_some hcf
    have honly : ∀ j cj, getIdx j cels = some cj → cj.frame = f → j = ci :=
      fun j cj hg hfe => hfd j ci cj c0 hg hk (by rw [hfe, hkf])
    simp only [removeCelCore, hk]
    rw [eraIdx_eq_filter hk hkf honly]
    rw [shiftLoop_eq _ (f+1) _ ?_ ?_ ?_]
    · rw [map_shift_lt_eq]
    · rw [← eraIdx_eq_filter hk hkf honly]
      intro i j ci2 cj2 hgi hgj heq
      rw [getIdx_eraIdx] at hgi hgj
      by_cases hi : i < ci <;> by_cases hj : j < ci
      · rw [if_pos hi] at hgi
        rw [if_pos hj] at hgj
        exact hfd i j ci2 cj2 hgi hgj heq
      · rw [if_pos hi] at hgi
        rw [if_neg hj] at hgj
        have := hfd i (j+1) ci2 cj2 hgi hgj heq
        omega
      · rw [if_neg hi] at hgi
        rw [if_pos hj] at hgj
        have := hfd (i+1) j ci2 cj2 hgi hgj heq
        omega
      · rw [if_neg hi] at hgi
        rw [if_neg hj] at hgj
        have := hfd (i+1) (j+1) ci2 cj2 hgi hgj heq
        omega
    · rw [← eraIdx_eq_filter hk hkf honly]
      intro i c hg
      rw [getIdx_eraIdx] at hg
      intro hfe
      by_cases hi : i < ci
      · rw [if_pos hi] at hg
        have := honly i c hg (by omega)
        omega
      · rw [if_neg hi] at hg
        have := honly (i+1) c hg (by omega)
        omega
    · rw [← eraIdx_eq_filter hk hkf honly]
      intro i c hg
      rw [getIdx_eraIdx] at hg
      by_cases hi : i < ci
      · rw [if_pos hi] at hg
        have := (hrange i c hg).2
        omega
      · rw [if_neg hi] at hg
        have := (hrange (i+1) c hg).2
        omega

mutual

theorem removeFrameOfLayer_fst (total f : Int) (l : Layer) :
    ∀ (s : List (Option Img)), framesOkLayer total l = true →
      (removeFrameOfLayer total f l s).1 = remFrameExpected f l := by
  cases l with
  | image lid fl cels =>
    intro s h
    exact removeFrame_cels_core total f cels s lid fl
      (by simpa [framesOkLayer] using h)
  | folder lid fl cs =>
    intro s h
    simp only [removeFrameOfLayer, remFrameExpected]
    rw [removeFrameOfLayers_fst total f cs s (by simpa [framesOkLayer] using h)]

theorem removeFrameOfLayers_fst (total f : Int) (ls : List Layer) :
    ∀ (s : List (Option Img)), framesOkLayers total ls = true →
      (removeFrameOfLayers total f ls s).1 = remFrameExpectedList f ls := by
  cases ls with
  | nil => intro s h; rfl
  | cons l ls2 =>
    intro s h
    simp only [framesOkLayers, Bool.and_eq_true] at h
    simp only [removeFrameOfLayers, remFrameExpectedList]
    rw [removeFrameOfLayer_fst total f l s h.1]
    rw [removeFrameOfLayers_fst total f ls2 _ h.2]

end

/-- C6: for a frame index f in [0, totalFrames), under the documented
one-cel-per-frame invariant, removeFrame drops (or no-ops, when absent)
each image layer's cel at frame f, shifts every cel at a later frame one
frame earlier (recursively through folders), clamps the current frame
downward when it would fall outside the shrunk range, and decrements
totalFrames by one. -/
theorem removeFrame_behaviour (f : Int) (d : Doc)
    (hok : framesOkLayers d.totalFrames d.root = true)
    (_hf1 : 0 ≤ f) (_hf2 : f < d.totalFrames) :
    (removeFrameOp f d).root = remFrameExpectedList f d.root ∧
    (removeFrameOp f d).totalFrames = d.totalFrames - 1 ∧
    (removeFrameOp f d).currentFrame =
      (if d.totalFrames - 1 ≤ d.currentFrame then d.totalFrames - 2
       else d.currentFrame) := by
  have hroot := removeFrameOfLayers_fst d.totalFrames f d.root d.stock hok
  refine ⟨?_, ?_, ?_⟩
  · simp only [removeFrameOp, applyPrim]
    split <;> exact hroot
  · simp only [removeFrameOp, applyPrim]
  · simp only [removeFrameOp, applyPrim]
    split
    case isTrue h =>
      show d.totalFrames - 1 - 1 = d.totalFrames - 2
      omega
    case isFalse h =>
      rfl

/-- Witness for C6, the spec scenario: removeFrame(2) on the 5-frame
sprite whose layer has cels at frames 1, 2, 3 leaves cels at frames 1 and
2 only (the old frame-3 cel renumbered to 2) and totalFrames = 4. -/
theorem removeFrame_behaviour_witness :
    framesOkLayers scenarioRemoveDoc.totalFrames scenarioRemoveDoc.root = true ∧
    (0 : Int) ≤ 2 ∧ (2 : Int) < scenarioRemoveDoc.totalFrames ∧
    (removeFrameOp 2 scenarioRemoveDoc).root
      = remFrameExpectedList 2 scenarioRemoveDoc.root ∧
    (removeFrameOp 2 scenarioRemoveDoc).totalFrames = 4 ∧
    celsAt [] 0 (removeFrameOp 2 scenarioRemoveDoc).root
      = some [{ frame := 1, x := 0, y := 0, opacity := 255, image := 0 },
              { frame := 2, x := 0, y := 0, opacity := 255, image := 2 }] := by
  have h := removeFrame_behaviour 2 scenarioRemoveDoc (by decide) (by decide) (by decide)
  exact ⟨by decide, by decide, by decide, h.1, by decide, by decide⟩

end AseUndo
